import Mathlib

/-!
Verification development for the hybrid retrieval engine of `ResumeAgents`
(`resumeagents/utils/unified_vectordb.py`, class `UnifiedVectorDB`).

The Python class is shallowly embedded as follows.

* The in-memory engine state (`data_entries`, `metadata`, the FAISS index,
  the BM25 keyword tables and the per-entry payload files) is the structure
  `DBState`.  Python `dict`s are association lists with first-match lookup
  and insertion-order append, matching CPython's ordered-dict semantics;
  a `collections.Counter` row is represented by the token list it counts.
* The FAISS index `IndexFlatIP` stores one L2-normalised embedding per added
  text and supports only append, full rebuild, and search.  The external
  encoder is deterministic (spec section 6), so the index contents are
  represented by the list of texts whose embeddings are stored
  (`DBState.indexTexts`); `ntotal` is its length.  The result of
  `index.search` for a given query is an external input and is passed to the
  search functions as an explicit argument (`hits`), a list of
  (inner-product score, index) pairs as returned by FAISS.
* Floating point arithmetic is modelled by exact arithmetic in a linear
  ordered field `K`; `math.log` is the function `Real.log` once `K` is
  instantiated at `ℝ` (every argument the code passes to `math.log` is
  rational, so the embedding takes a function `lnq : ℚ → K`).  Purely
  rational intermediate quantities (type weights, keyword bonuses, BM25
  term fractions) are computed in `ℚ` and cast into `K`.
* File-system effects (`save_db`, writing payload files) either do not
  change the in-memory state (modelled as the identity) or are recorded in
  the `entryFiles` field of the state.
-/

/-! ## Generic list and string helpers -/

/-- First-match lookup in an association list (Python `d[k]` / `k in d`). -/
def alookup [DecidableEq α] : List (α × β) → α → Option β
  | [], _ => none
  | (k, v) :: rest, key => if k = key then some v else alookup rest key

/-- Python `d[k] = v` on a dict represented as an association list: replace
the first binding of `k` in place, or append a new binding at the end
(CPython dicts preserve insertion order). -/
def assocSet [DecidableEq α] : List (α × β) → α → β → List (α × β)
  | [], key, val => [(key, val)]
  | (k, v) :: rest, key, val =>
      if k = key then (key, val) :: rest else (k, v) :: assocSet rest key val

/-- Number of occurrences of `a` in `l` (Python `Counter(tokens)[a]`). -/
def countOcc [DecidableEq α] (a : α) : List α → Nat
  | [] => 0
  | b :: rest => (if b = a then 1 else 0) + countOcc a rest

/-- Remove duplicates keeping the first occurrence of each element.
Used to model iteration over Python `set(tokens)` (the Python iteration
order is unspecified; every use in the source is order-insensitive, and we
fix first-occurrence order) and `dict.fromkeys` deduplication. -/
def dedupKeepFirst [DecidableEq α] (seen : List α) : List α → List α
  | [] => []
  | a :: rest =>
      if a ∈ seen then dedupKeepFirst seen rest
      else a :: dedupKeepFirst (seen ++ [a]) rest

/-- Python `while len(l) <= i: l.append(d)`. -/
def padTo (l : List α) (i : Nat) (d : α) : List α :=
  l ++ List.replicate (i + 1 - l.length) d

/-- Python `enumerate`, starting at `n`. -/
def enumFrom (n : Nat) : List α → List (Nat × α)
  | [] => []
  | a :: rest => (n, a) :: enumFrom (n + 1) rest

/-- Whether `sub` starts the character list `l`. -/
def startsWithChars : List Char → List Char → Bool
  | [], _ => true
  | _ :: _, [] => false
  | a :: as, b :: bs => a = b && startsWithChars as bs

/-- Whether `sub` occurs contiguously inside `l`. -/
def containsChars (sub : List Char) : List Char → Bool
  | [] => startsWithChars sub []
  | c :: rest => startsWithChars sub (c :: rest) || containsChars sub rest

/-- Python substring test `sub in hay`. -/
def strContains (hay sub : String) : Bool :=
  containsChars sub.toList hay.toList

/-- Python `text.lower()` (ASCII case folding; Hangul has no case). -/
def strLower (s : String) : String :=
  String.mk (s.toList.map Char.toLower)

/-! ## Tokenizer (`_tokenize`) -/

/-- Hangul syllable range `가-힣` of the source regex. -/
def isHangul (c : Char) : Bool :=
  0xAC00 ≤ c.toNat && c.toNat ≤ 0xD7A3

/-- A character kept by the source regex `[^\w\s가-힣]` replacement: word
characters (`\w` restricted to the ASCII letters, digits and underscore that
appear in the texts this development evaluates) and Hangul syllables. -/
def isWordChar (c : Char) : Bool :=
  c.isAlphanum || c = '_' || isHangul c

/-- The mixed-language stopword set of `_tokenize`. -/
def stopWords : List String :=
  ["이", "그", "저", "것", "수", "있", "하", "되", "될", "한", "일", "때", "중", "및", "등",
   "the", "a", "an", "and", "or", "but", "in", "on", "at", "to", "for", "of", "with", "by"]

/-- Python `str.split()` over a character list: split on whitespace runs,
dropping empty pieces.  `cur` accumulates the current token reversed. -/
def splitWsAux (cur : List Char) : List Char → List String
  | [] => if cur = [] then [] else [String.mk cur.reverse]
  | c :: rest =>
      if c.isWhitespace then
        if cur = [] then splitWsAux [] rest
        else String.mk cur.reverse :: splitWsAux [] rest
      else splitWsAux (c :: cur) rest

/-- `_tokenize`: lowercase, replace every character that is neither a word
character, whitespace nor Hangul by a space, split on whitespace (Python
`str.split()` drops empty pieces), and drop tokens of length at most 1 or
in the stopword set. -/
def tokenize (text : String) : List String :=
  let lower := (strLower text).toList
  let cleaned := lower.map (fun c => if isWordChar c || c.isWhitespace then c else ' ')
  let toks := splitWsAux [] cleaned
  toks.filter (fun t => 1 < t.length && !(stopWords.contains t))

/-! ## Query expansion (`_expand_query`) -/

/-- The static synonym dictionary of `_expand_query`, in source order. -/
def synonyms : List (String × List String) :=
  [("백엔드", ["backend", "서버", "server", "API", "서버사이드"]),
   ("프론트엔드", ["frontend", "클라이언트", "client", "UI", "UX", "웹"]),
   ("파이썬", ["python", "django", "flask", "fastapi", "py"]),
   ("자바스크립트", ["javascript", "js", "node", "react", "vue", "angular"]),
   ("데이터베이스", ["database", "db", "mysql", "postgresql", "mongodb", "sql"]),
   ("클라우드", ["cloud", "aws", "azure", "gcp", "kubernetes", "docker"]),
   ("개발", ["development", "coding", "programming", "구현", "코딩"]),
   ("프로젝트", ["project", "작업", "업무", "개발", "시스템"]),
   ("경험", ["experience", "이력", "업무", "프로젝트", "참여"]),
   ("성능", ["performance", "최적화", "optimization", "속도", "튜닝"]),
   ("보안", ["security", "암호화", "인증", "authorization", "권한"]),
   ("최적화", ["optimization", "performance", "tuning", "개선", "향상"]),
   ("아키텍처", ["architecture", "설계", "design", "구조", "시스템"]),
   ("데이터엔지니어", ["data engineer", "데이터엔지니어링", "data engineering", "ETL", "파이프라인"]),
   ("데이터파이프라인", ["data pipeline", "ETL", "ELT", "데이터플로우", "workflow", "airflow"]),
   ("ETL", ["extract transform load", "데이터파이프라인", "데이터처리", "배치처리"]),
   ("ELT", ["extract load transform", "데이터레이크", "클라우드데이터"]),
   ("스트리밍", ["streaming", "실시간", "real-time", "kafka", "kinesis", "spark streaming"]),
   ("배치처리", ["batch processing", "스케줄링", "cron", "airflow", "luigi"]),
   ("데이터사이언스", ["data science", "데이터분석", "통계분석", "예측모델링"]),
   ("데이터사이언티스트", ["data scientist", "분석가", "analyst", "연구원"]),
   ("데이터분석", ["data analysis", "analytics", "통계", "statistics", "시각화"]),
   ("통계", ["statistics", "통계학", "확률", "probability", "추론"]),
   ("예측모델링", ["predictive modeling", "forecasting", "예측", "모델링", "regression"]),
   ("분류", ["classification", "classifier", "supervised learning", "지도학습"]),
   ("회귀", ["regression", "linear regression", "예측", "연속값"]),
   ("클러스터링", ["clustering", "군집화", "unsupervised", "비지도학습"]),
   ("머신러닝", ["machine learning", "ML", "AI", "인공지능", "딥러닝", "모델", "학습"]),
   ("딥러닝", ["deep learning", "neural network", "신경망", "CNN", "RNN", "transformer"]),
   ("인공지능", ["artificial intelligence", "AI", "머신러닝", "딥러닝", "자동화"]),
   ("신경망", ["neural network", "딥러닝", "퍼셉트론", "레이어", "노드"]),
   ("자연어처리", ["NLP", "natural language processing", "텍스트분석", "언어모델"]),
   ("컴퓨터비전", ["computer vision", "CV", "이미지처리", "객체인식", "CNN"]),
   ("추천시스템", ["recommendation system", "collaborative filtering", "개인화", "추천엔진"]),
   ("강화학습", ["reinforcement learning", "RL", "에이전트", "보상", "정책"]),
   ("빅데이터", ["big data", "대용량데이터", "분산처리", "hadoop", "spark"]),
   ("하둡", ["hadoop", "HDFS", "mapreduce", "분산저장", "클러스터"]),
   ("스파크", ["spark", "apache spark", "분산처리", "인메모리", "실시간"]),
   ("카프카", ["kafka", "메시징", "스트리밍", "이벤트", "큐", "실시간"]),
   ("엘라스틱서치", ["elasticsearch", "검색엔진", "로그분석", "인덱싱", "kibana"]),
   ("NoSQL", ["nosql", "mongodb", "cassandra", "redis", "비관계형"]),
   ("데이터웨어하우스", ["data warehouse", "DW", "OLAP", "dimensional modeling"]),
   ("데이터레이크", ["data lake", "S3", "저장소", "원시데이터", "스키마온리드"]),
   ("데이터마트", ["data mart", "부서별데이터", "요약데이터", "OLAP"]),
   ("MLOps", ["mlops", "모델운영", "CI/CD", "모델배포", "모델관리"]),
   ("모델배포", ["model deployment", "serving", "추론", "production", "API"]),
   ("모델모니터링", ["model monitoring", "drift detection", "성능추적", "A/B테스트"]),
   ("피처엔지니어링", ["feature engineering", "변수생성", "전처리", "피처선택"]),
   ("하이퍼파라미터", ["hyperparameter", "튜닝", "최적화", "그리드서치"]),
   ("시각화", ["visualization", "차트", "그래프", "대시보드", "plotting"]),
   ("대시보드", ["dashboard", "BI", "business intelligence", "리포팅"]),
   ("BI", ["business intelligence", "대시보드", "리포팅", "분석도구"]),
   ("태블로", ["tableau", "시각화도구", "대시보드", "셀프서비스"]),
   ("R", ["R언어", "통계분석", "데이터분석", "ggplot", "dplyr"]),
   ("SQL", ["데이터베이스", "쿼리", "조인", "집계", "분석"]),
   ("주피터", ["jupyter", "notebook", "ipython", "분석환경", "프로토타이핑"]),
   ("도커", ["docker", "컨테이너", "가상화", "배포", "환경관리"]),
   ("git", ["버전관리", "협업", "github", "gitlab", "소스관리"]),
   ("A/B테스트", ["AB test", "실험설계", "통계검정", "가설검증"]),
   ("추천엔진", ["recommendation engine", "협업필터링", "개인화", "추천시스템"]),
   ("이상탐지", ["anomaly detection", "outlier", "fraud detection", "비정상"]),
   ("시계열", ["time series", "시간데이터", "예측", "트렌드", "계절성"]),
   ("텍스트마이닝", ["text mining", "자연어처리", "감정분석", "토픽모델링"])]

/-- The related-technology dictionary of `_expand_query`, in source order. -/
def techRelations : List (String × List String) :=
  [("python", ["pandas", "numpy", "scikit-learn", "데이터분석", "머신러닝"]),
   ("pandas", ["데이터프레임", "전처리", "데이터조작", "분석"]),
   ("numpy", ["수치계산", "배열", "선형대수", "과학계산"]),
   ("scikit-learn", ["머신러닝", "분류", "회귀", "클러스터링"]),
   ("matplotlib", ["시각화", "플롯", "차트", "그래프"]),
   ("seaborn", ["통계시각화", "히트맵", "분포", "상관관계"]),
   ("tensorflow", ["딥러닝", "신경망", "모델훈련", "케라스"]),
   ("pytorch", ["딥러닝", "동적그래프", "연구", "실험"]),
   ("keras", ["딥러닝", "고수준API", "빠른프로토타이핑"]),
   ("spark", ["분산처리", "빅데이터", "인메모리", "스케일링"]),
   ("hadoop", ["분산저장", "HDFS", "맵리듀스", "클러스터"]),
   ("kafka", ["실시간스트리밍", "메시지큐", "이벤트처리"]),
   ("airflow", ["워크플로우", "스케줄링", "데이터파이프라인", "오케스트레이션"]),
   ("postgresql", ["관계형DB", "ACID", "복잡쿼리", "분석"]),
   ("mongodb", ["NoSQL", "문서DB", "스키마리스", "확장성"]),
   ("redis", ["인메모리", "캐시", "세션저장", "실시간"]),
   ("elasticsearch", ["검색엔진", "전문검색", "로그분석", "집계"]),
   ("aws", ["S3", "EMR", "Redshift", "SageMaker", "Lambda"]),
   ("gcp", ["BigQuery", "Dataflow", "AI Platform", "Cloud ML"]),
   ("azure", ["Synapse", "Data Factory", "Machine Learning", "Cognitive Services"]),
   ("tableau", ["대시보드", "셀프서비스BI", "드래그앤드롭", "시각화"]),
   ("powerbi", ["마이크로소프트", "비즈니스인텔리전스", "리포팅"]),
   ("looker", ["모던BI", "데이터모델링", "SQL기반"]),
   ("mlflow", ["모델라이프사이클", "실험추적", "모델레지스트리"]),
   ("kubeflow", ["쿠버네티스", "ML워크플로우", "파이프라인"]),
   ("dvc", ["데이터버전관리", "ML실험", "재현가능성"]),
   ("lightgbm", ["그래디언트부스팅", "빠른학습", "메모리효율"]),
   ("xgboost", ["앙상블", "부스팅", "구조화데이터", "경진대회"]),
   ("catboost", ["범주형데이터", "그래디언트부스팅", "자동화"]),
   ("spacy", ["자연어처리", "NER", "품사태깅", "언어모델"]),
   ("nltk", ["자연어처리", "토큰화", "형태소분석", "코퍼스"]),
   ("opencv", ["컴퓨터비전", "이미지처리", "객체인식", "영상분석"]),
   ("scipy", ["과학계산", "최적화", "통계", "신호처리"]),
   ("statsmodels", ["통계모델링", "회귀분석", "시계열", "가설검정"]),
   ("networkx", ["그래프분석", "네트워크", "소셜네트워크", "관계분석"])]

/-- The contextual-inference dictionary of `_expand_query`, in source order. -/
def dataContexts : List (String × List String) :=
  [("분석", ["데이터분석", "통계", "인사이트", "리포팅"]),
   ("모델", ["머신러닝", "예측", "알고리즘", "훈련"]),
   ("처리", ["전처리", "ETL", "파이프라인", "변환"]),
   ("시각화", ["차트", "대시보드", "그래프", "플롯"]),
   ("예측", ["모델링", "포캐스팅", "회귀", "분류"]),
   ("추천", ["개인화", "협업필터링", "랭킹", "매칭"])]

/-- `_expand_query`: for every synonym group whose key occurs in the
lowercased query append up to 4 of its values; for every value occurring in
the query append the key and up to 3 sibling values; for matching related
technologies append up to 3 terms; for matching context head words append
up to 2 terms; deduplicate preserving first occurrence; finally repeat the
original query five times ahead of the remaining expansion terms. -/
def expandQuery (query : String) : String :=
  let queryLower := strLower query
  let terms := [query]
  let terms := synonyms.foldl
    (fun acc kv =>
      let acc := if strContains queryLower kv.1 then acc ++ kv.2.take 4 else acc
      kv.2.foldl
        (fun acc2 v =>
          if strContains queryLower v then
            (acc2 ++ [kv.1]) ++ (kv.2.filter (fun w => w ≠ v)).take 3
          else acc2)
        acc)
    terms
  let terms := techRelations.foldl
    (fun acc kv => if strContains queryLower kv.1 then acc ++ kv.2.take 3 else acc) terms
  let terms := dataContexts.foldl
    (fun acc kv => if strContains queryLower kv.1 then acc ++ kv.2.take 2 else acc) terms
  let uniqueTerms := dedupKeepFirst [] terms
  query ++ " " ++ query ++ " " ++ query ++ " " ++ query ++ " " ++ query ++ " " ++
    String.intercalate " " (uniqueTerms.drop 1)

/-! ## Data model -/

/-- The optimized metadata row kept in hot memory by `_add_entry`:
`{"type": ..., "profile_name": ..., "timestamp": ..., "index": ...}`.
`index` is `None` (here `none`) for the singleton categories. -/
structure Meta where
  category : String
  profileName : String
  timestamp : String
  arrayIndex : Option Nat
deriving DecidableEq

/-- Personal-information dict as read by `_personal_info_to_text`. -/
structure PersonalInfo where
  name : String
  email : String
  phone : String
  location : String
deriving DecidableEq

/-- Education dict as read by `_education_to_text`. -/
structure Education where
  university : String
  major : String
  degree : String
  graduationYear : String
  gpa : String
  relevantCourses : List String
  honors : List String
deriving DecidableEq

/-- One achievement dict of a work experience. -/
structure Achievement where
  description : String
  metrics : String
  impact : String
deriving DecidableEq

/-- Work-experience dict as read by `_work_experience_to_text`
(`duration` is the nested `{"start": ..., "end": ...}` dict). -/
structure WorkExperience where
  company : String
  position : String
  department : String
  durationStart : String
  durationEnd : String
  responsibilities : List String
  achievements : List Achievement
  technologies : List String
  teamSize : String
  keyProjects : List String
deriving DecidableEq

/-- Project dict as read by `_project_to_text`. -/
structure Project where
  name : String
  projType : String
  durationStart : String
  durationEnd : String
  description : String
  role : String
  technologies : List String
  achievements : String
  teamSize : String
deriving DecidableEq

/-- Certification dict as read by `_certification_to_text`. -/
structure Certification where
  name : String
  issuer : String
  date : String
  score : String
deriving DecidableEq

/-- Award dict as read by `_award_to_text`. -/
structure Award where
  name : String
  issuer : String
  date : String
  description : String
deriving DecidableEq

/-- Career-goals dict as read by `_career_goals_to_text`. -/
structure CareerGoals where
  shortTerm : String
  longTerm : String
  targetCompanies : List String
  preferredRoles : List String
deriving DecidableEq

/-- The structured payload stored for one entry in the Entry Store
(`entry_data/entry_{id}.json`); `emptyDict` models the empty dict `{}`
that `_load_entry_data` returns for an absent or unparsable file. -/
inductive Payload where
  | emptyDict
  | personal (p : PersonalInfo)
  | education (e : Education)
  | work (w : WorkExperience)
  | project (p : Project)
  | skills (s : List (String × List String))
  | certification (c : Certification)
  | award (a : Award)
  | careerGoals (g : CareerGoals)
  | interests (l : List String)
deriving DecidableEq

/-- A JSON profile as accessed by `add_profile_to_vectordb` via
`profile_data.get(key, default)`.  `none` / `[]` model an absent key or a
falsy (empty) value, which the source treats identically.  The `skills`
dict maps category names to skill lists (`_skills_to_text` only reads the
list-valued entries, and we represent exactly those). -/
structure ProfileData where
  personalInfo : Option PersonalInfo
  education : List Education
  workExperience : List WorkExperience
  projects : List Project
  skills : List (String × List String)
  certifications : List Certification
  awards : List Award
  careerGoals : Option CareerGoals
  interests : List String
deriving DecidableEq

/-- The in-memory state of `UnifiedVectorDB`.

`indexTexts` is the FAISS index: the list of texts whose (normalised)
embeddings it holds, in insertion order; `ntotal = indexTexts.length`.
`docFrequencies` holds one row per document, the row being the token list
whose `Counter` the source stores (lookups use `countOcc`).
`entryFiles` is the Entry Store on disk: `some p` is a readable payload
file, `none` an unparsable one (absent ids are simply missing keys).
The query-embedding cache is pure memoisation and is not modelled. -/
structure DBState where
  dataEntries : List String
  metadata : List Meta
  indexTexts : List String
  keywordIndex : List (String × List Nat)
  docFrequencies : List (List String)
  docLengths : List Nat
  avgDocLength : ℚ
  entryFiles : List (Nat × Option Payload)
deriving DecidableEq

/-- The state built by `__init__` before `_load_existing_db` runs. -/
def emptyDB : DBState :=
  { dataEntries := [], metadata := [], indexTexts := [], keywordIndex := [],
    docFrequencies := [], docLengths := [], avgDocLength := 0, entryFiles := [] }

/-! ## Category-to-text derivations -/

/-- `_personal_info_to_text`. -/
def personalInfoToText (p : PersonalInfo) : String :=
  String.intercalate " "
    ["이름: " ++ p.name, "이메일: " ++ p.email, "전화번호: " ++ p.phone, "거주지: " ++ p.location]

/-- `_education_to_text`. -/
def educationToText (e : Education) : String :=
  String.intercalate " "
    (["학교: " ++ e.university, "전공: " ++ e.major, "학위: " ++ e.degree,
      "졸업년도: " ++ e.graduationYear, "학점: " ++ e.gpa]
     ++ e.relevantCourses ++ e.honors)

/-- `_work_experience_to_text`. -/
def workExperienceToText (w : WorkExperience) : String :=
  String.intercalate " "
    (["회사: " ++ w.company, "직책: " ++ w.position, "부서: " ++ w.department,
      "기간: " ++ w.durationStart ++ " ~ " ++ w.durationEnd]
     ++ w.responsibilities
     ++ (w.achievements.foldl
          (fun acc a =>
            acc ++ ["성과: " ++ a.description, "지표: " ++ a.metrics, "임팩트: " ++ a.impact]) [])
     ++ w.technologies
     ++ ["팀규모: " ++ w.teamSize]
     ++ w.keyProjects)

/-- `_project_to_text`. -/
def projectToText (p : Project) : String :=
  String.intercalate " "
    (["프로젝트명: " ++ p.name, "유형: " ++ p.projType,
      "기간: " ++ p.durationStart ++ " ~ " ++ p.durationEnd,
      "설명: " ++ p.description, "역할: " ++ p.role]
     ++ p.technologies
     ++ ["성과: " ++ p.achievements, "팀규모: " ++ p.teamSize])

/-- `_skills_to_text` (the list-valued dict entries are concatenated). -/
def skillsToText (s : List (String × List String)) : String :=
  String.intercalate " " (s.foldl (fun acc kv => acc ++ kv.2) [])

/-- `_certification_to_text`. -/
def certificationToText (c : Certification) : String :=
  String.intercalate " "
    ["자격증명: " ++ c.name, "발급기관: " ++ c.issuer, "취득일: " ++ c.date, "점수: " ++ c.score]

/-- `_award_to_text`. -/
def awardToText (a : Award) : String :=
  String.intercalate " "
    ["수상명: " ++ a.name, "수여기관: " ++ a.issuer, "수상일: " ++ a.date, "내용: " ++ a.description]

/-- `_career_goals_to_text`. -/
def careerGoalsToText (g : CareerGoals) : String :=
  String.intercalate " "
    (["단기목표: " ++ g.shortTerm, "장기목표: " ++ g.longTerm]
     ++ g.targetCompanies ++ g.preferredRoles)

/-- `_interests_to_text`. -/
def interestsToText (l : List String) : String :=
  String.intercalate " " l

/-! ## Keyword index maintenance -/

/-- One posting append of `_build_keyword_index`: `keyword_index.setdefault(token, []).append(doc_id)`
(the build loop appends unconditionally; within one document each token is
visited once because iteration is over `set(tokens)`). -/
def appendPosting (ki : List (String × List Nat)) (token : String) (docId : Nat) :
    List (String × List Nat) :=
  match alookup ki token with
  | none => ki ++ [(token, [docId])]
  | some l => assocSet ki token (l ++ [docId])

/-- One posting append of `_update_keyword_index`, which additionally skips
the append when `doc_id` is already present in the posting list. -/
def appendPostingOnce (ki : List (String × List Nat)) (token : String) (docId : Nat) :
    List (String × List Nat) :=
  match alookup ki token with
  | none => ki ++ [(token, [docId])]
  | some l => if docId ∈ l then ki else assocSet ki token (l ++ [docId])

/-- The recomputation `avg_doc_length = sum(doc_lengths)/len(doc_lengths) if doc_lengths else 0`. -/
def avgOf (lens : List Nat) : ℚ :=
  if lens = [] then 0 else ((lens.sum : ℚ) / (lens.length : ℚ))

/-- `_update_keyword_index(text, doc_id)`: tokenize, extend the per-document
frequency and length tables up to `doc_id` if needed, overwrite row
`doc_id`, recompute the average document length, and add `doc_id` to the
posting list of each distinct token. -/
def updateKeywordIndex (st : DBState) (text : String) (docId : Nat) : DBState :=
  let tokens := tokenize text
  let freqs := (padTo st.docFrequencies docId []).set docId tokens
  let lens := (padTo st.docLengths docId 0).set docId tokens.length
  let ki := (dedupKeepFirst [] tokens).foldl (fun ki t => appendPostingOnce ki t docId)
    st.keywordIndex
  { st with docFrequencies := freqs, docLengths := lens,
            avgDocLength := avgOf lens, keywordIndex := ki }

/-- The posting-building loop of `_build_keyword_index` over the documents
`texts`, numbering them from `docId` (models `enumerate(self.data_entries)`). -/
def buildPostings : List String → Nat → List (String × List Nat) → List (String × List Nat)
  | [], _, ki => ki
  | t :: rest, docId, ki =>
      buildPostings rest (docId + 1)
        ((dedupKeepFirst [] (tokenize t)).foldl (fun ki tok => appendPosting ki tok docId) ki)

/-- `_build_keyword_index`: reset and rebuild all keyword tables from
`data_entries` (the source fills `doc_frequencies` and `doc_lengths` inside
the same enumeration loop; per document the stored row is `Counter(tokens)`
and `len(tokens)`). -/
def buildKeywordIndex (st : DBState) : DBState :=
  let rows := st.dataEntries.map tokenize
  { st with keywordIndex := buildPostings st.dataEntries 0 [],
            docFrequencies := rows,
            docLengths := rows.map List.length,
            avgDocLength := avgOf (rows.map List.length) }

/-! ## Entry store and entry addition -/

/-- `_save_entry_data(entry_id, data)`: (over)write the payload file
`entry_data/entry_{id}.json`. -/
def saveEntryData (st : DBState) (entryId : Nat) (data : Payload) : DBState :=
  { st with entryFiles := assocSet st.entryFiles entryId (some data) }

/-- `_load_entry_data(entry_id)`: return the stored payload, or the empty
dict when the file is absent or fails to parse. -/
def loadEntryData (st : DBState) (entryId : Nat) : Payload :=
  match alookup st.entryFiles entryId with
  | some (some p) => p
  | _ => Payload.emptyDict

/-- `_add_entry(text, metadata)`: embed and append the text to the FAISS
index, append the text and the optimized metadata row to the parallel
arrays, update the keyword index for the new document id, and persist the
payload; returns the new entry id (`len(data_entries)` before the append). -/
def addEntry (st : DBState) (text : String) (category profileName ts : String)
    (arrayIndex : Option Nat) (data : Payload) : Nat × DBState :=
  let st := { st with indexTexts := st.indexTexts ++ [text] }
  let entryId := st.dataEntries.length
  let md : Meta := { category := category, profileName := profileName,
                     timestamp := ts, arrayIndex := arrayIndex }
  let st := { st with dataEntries := st.dataEntries ++ [text],
                      metadata := st.metadata ++ [md] }
  let st := updateKeywordIndex st text entryId
  let st := saveEntryData st entryId data
  (entryId, st)

/-- `get_entry_with_data` result: the empty dict, or the stored metadata
extended with the payload (`data`) and the text. -/
inductive EntryLookup where
  | emptyDict
  | found (md : Meta) (data : Payload) (text : String)
deriving DecidableEq

/-- Fallback metadata row; never reached by in-range lookups. -/
def defaultMeta : Meta :=
  { category := "", profileName := "", timestamp := "", arrayIndex := none }

/-- `get_entry_with_data(entry_id)`. -/
def getEntryWithData (st : DBState) (entryId : Nat) : EntryLookup :=
  if st.metadata.length ≤ entryId then EntryLookup.emptyDict
  else EntryLookup.found (st.metadata.getD entryId defaultMeta)
        (loadEntryData st entryId) (st.dataEntries.getD entryId "")

/-! ## Profile purge and FAISS rebuild -/

/-- `_rebuild_faiss_index`: replace the index by a fresh one re-embedding
every surviving entry (also when the corpus is empty, in which case the
fresh index is empty). -/
def rebuildFaissIndex (st : DBState) : DBState :=
  { st with indexTexts := st.dataEntries }

/-- `_remove_profile_entries(profile_name)`: delete from `data_entries` and
`metadata` every row whose `profile_name` matches (the source deletes the
collected indices in reverse order, which on the parallel arrays equals
filtering the zipped rows), then rebuild the FAISS index.  The keyword
tables are not touched.  Nothing happens when `metadata` is empty or no row
matches. -/
def removeProfileEntries (st : DBState) (profileName : String) : DBState :=
  if st.metadata = [] then st
  else if st.metadata.filter (fun m => m.profileName = profileName) = [] then st
  else
    let kept := (st.dataEntries.zip st.metadata).filter
      (fun p => p.2.profileName ≠ profileName)
    rebuildFaissIndex
      { st with dataEntries := kept.map Prod.fst, metadata := kept.map Prod.snd }

/-! ## Profile synchronisation (`add_profile_to_vectordb`) -/

/-- One entry derived from a profile category item: its searchable text,
its category tag, its `index` metadata field, and its payload. -/
structure DerivedEntry where
  text : String
  category : String
  arrayIndex : Option Nat
  payload : Payload
deriving DecidableEq

/-- The entries derived from a profile by the nine sequential blocks of
`add_profile_to_vectordb`, in source order. -/
def derivedEntries (p : ProfileData) : List DerivedEntry :=
  (match p.personalInfo with
   | none => []
   | some pi => [{ text := personalInfoToText pi, category := "personal_info",
                   arrayIndex := none, payload := Payload.personal pi }])
  ++ (enumFrom 0 p.education).map (fun ie =>
       { text := educationToText ie.2, category := "education",
         arrayIndex := some ie.1, payload := Payload.education ie.2 })
  ++ (enumFrom 0 p.workExperience).map (fun iw =>
       { text := workExperienceToText iw.2, category := "work_experience",
         arrayIndex := some iw.1, payload := Payload.work iw.2 })
  ++ (enumFrom 0 p.projects).map (fun ip =>
       { text := projectToText ip.2, category := "project",
         arrayIndex := some ip.1, payload := Payload.project ip.2 })
  ++ (if p.skills = [] then []
      else [{ text := skillsToText p.skills, category := "skills",
              arrayIndex := none, payload := Payload.skills p.skills }])
  ++ (enumFrom 0 p.certifications).map (fun ic =>
       { text := certificationToText ic.2, category := "certification",
         arrayIndex := some ic.1, payload := Payload.certification ic.2 })
  ++ (enumFrom 0 p.awards).map (fun ia =>
       { text := awardToText ia.2, category := "award",
         arrayIndex := some ia.1, payload := Payload.award ia.2 })
  ++ (match p.careerGoals with
      | none => []
      | some g => [{ text := careerGoalsToText g, category := "career_goals",
                     arrayIndex := none, payload := Payload.careerGoals g }])
  ++ (if p.interests = [] then []
      else [{ text := interestsToText p.interests, category := "interests",
              arrayIndex := none, payload := Payload.interests p.interests }])

/-- The fold adding a list of derived entries via `_add_entry`, collecting
the returned entry ids. -/
def addDerivedEntries (profileName ts : String) (entries : List DerivedEntry)
    (acc : List Nat × DBState) : List Nat × DBState :=
  entries.foldl
    (fun acc e =>
      let r := addEntry acc.2 e.text e.category profileName ts e.arrayIndex e.payload
      (acc.1 ++ [r.1], r.2))
    acc

/-- `add_profile_to_vectordb(profile_data, profile_name)`: purge any prior
entries of the profile, then add one entry per derived category item and
return the collected entry ids.  `datetime.now().isoformat()` is the
external clock value `ts` supplied per call; `save_db()` only writes the
state to disk and does not change it. -/
def addProfileToVectordb (st : DBState) (p : ProfileData) (profileName ts : String) :
    List Nat × DBState :=
  addDerivedEntries profileName ts (derivedEntries p) ([], removeProfileEntries st profileName)

/-! ## Stats and startup load -/

/-- `counts[key] = counts.get(key, 0) + 1`. -/
def bumpCount (l : List (String × Nat)) (key : String) : List (String × Nat) :=
  assocSet l key ((alookup l key).getD 0 + 1)

/-- Result of `get_db_stats`. -/
structure DbStats where
  totalEntries : Nat
  typeCounts : List (String × Nat)
  profileCounts : List (String × Nat)
  indexSize : Nat
deriving DecidableEq

/-- `get_db_stats()`. -/
def getDbStats (st : DBState) : DbStats :=
  let counts := st.metadata.foldl
    (fun (acc : List (String × Nat) × List (String × Nat)) m =>
      (bumpCount acc.1 m.category, bumpCount acc.2 m.profileName))
    ([], [])
  { totalEntries := st.dataEntries.length, typeCounts := counts.1,
    profileCounts := counts.2, indexSize := st.indexTexts.length }

/-- `_load_existing_db()` run on the freshly initialised state `st`.
`filesPresent` is whether both on-disk files exist; `indexRead` is the
outcome of `faiss.read_index` (`none` = raises) and `metaRead` the outcome
of opening, JSON-parsing and field-accessing the metadata file (`none` =
any of those raises).  The `except` clause only prints, so whatever was
assigned before the exception is kept. -/
def loadExistingDb (filesPresent : Bool) (indexRead : Option (List String))
    (metaRead : Option (List String × List Meta)) (st : DBState) : DBState :=
  if filesPresent then
    match indexRead with
    | none => st
    | some idx =>
      match metaRead with
      | none => { st with indexTexts := idx }
      | some dm => { st with indexTexts := idx, dataEntries := dm.1, metadata := dm.2 }
  else st

/-! ## Search layer

Scores are values of a linear ordered field `K` (instantiated at `ℝ` in the
theorems); `lnq : ℚ → K` is `math.log` restricted to the rational arguments
the source passes it (`Real.log` composed with the cast at `K = ℝ`). -/

/-- One search-result dict.  The diagnostic fields `original_score`,
`type_weight` and `keyword_bonus` only exist on semantic results and the
hybrid fields `semantic_score`, `keyword_score`, `combined_score` are only
added during hybrid merging; a field not (yet) present in the Python dict
holds `0` here. -/
structure SearchResult (K : Type) where
  meta : Meta
  score : K
  originalScore : K
  typeWeight : K
  keywordBonus : K
  text : String
  searchMethod : String
  semanticScore : K
  keywordScore : K
  combinedScore : K

variable {K : Type} [LinearOrderedField K]

/-- Stable insertion of `x` into a list sorted descending by `key`:
`x` goes after every element whose key is at least `key x`. -/
def insertDesc (key : α → K) (x : α) : List α → List α
  | [] => [x]
  | y :: ys => if key y < key x then x :: y :: ys else y :: insertDesc key x ys

/-- Python `list.sort(key=key, reverse=True)`: a stable descending sort
(equal keys keep their original relative order). -/
def sortDesc (key : α → K) (l : List α) : List α :=
  l.foldl (fun acc x => insertDesc key x acc) []

/-- The per-category weight table of `_semantic_search`, in source order. -/
def typeWeights : List (String × ℚ) :=
  [("work_experience", 1.5), ("project", 1.4),
   ("skills", 1.3), ("certifications", 1.2),
   ("education", 1.1), ("research", 1.3), ("publications", 1.2),
   ("career_goals", 1.0), ("personal_info", 0.9), ("award", 1.1), ("interests", 0.8),
   ("kaggle_competitions", 1.3), ("data_projects", 1.4), ("ml_models", 1.3),
   ("analytics_reports", 1.1), ("data_pipelines", 1.2), ("dashboards", 1.0),
   ("ab_tests", 1.1), ("feature_engineering", 1.2), ("model_deployment", 1.3),
   ("data_visualization", 1.0)]

/-- The domain lexicon scanned for the keyword-density bonus. -/
def dataAiKeywords : List String :=
  ["python", "pandas", "numpy", "scikit-learn", "tensorflow", "pytorch",
   "machine learning", "deep learning", "data science", "analytics",
   "sql", "spark", "hadoop", "kafka", "airflow", "tableau", "powerbi",
   "statistics", "regression", "classification", "clustering", "nlp",
   "computer vision", "recommendation", "time series", "a/b test"]

/-- `if profile_name and metadata.get("profile_name") != profile_name: continue`
(an empty or absent filter is falsy and disables filtering). -/
def skipByProfile (profileName : Option String) (md : Meta) : Bool :=
  match profileName with
  | none => false
  | some p => p ≠ "" && md.profileName ≠ p

/-- `if data_types and metadata.get("type") not in data_types: continue`
(an empty or absent list is falsy and disables filtering). -/
def skipByTypes (dataTypes : Option (List String)) (md : Meta) : Bool :=
  match dataTypes with
  | none => false
  | some ts => ts ≠ [] && !(ts.contains md.category)

/-- `_semantic_search`.  `hits` is the external result
`zip(scores[0], indices[0])` of `self.index.search(query_embedding, search_k)`
with `search_k = min(top_k * 3, ntotal)`: a list of (inner-product score,
index) pairs, index `-1` padding possible on short indices.  FAISS returns
indices below `ntotal`, which under the parallel-array invariant are
in range for `metadata`; the `getD` defaults are never reached then.
The query string itself only enters through the external embedding, hence
does not appear. -/
def semanticSearch (st : DBState) (hits : List (K × Int)) (profileName : Option String)
    (dataTypes : Option (List String)) (topK : Nat) (minScore : K) : List (SearchResult K) :=
  let results := hits.foldl
    (fun acc h =>
      if 0 ≤ h.2 ∧ minScore ≤ h.1 then
        let i := h.2.toNat
        let md := st.metadata.getD i defaultMeta
        if skipByProfile profileName md then acc
        else if skipByTypes dataTypes md then acc
        else
          let w : ℚ := ((alookup typeWeights md.category).getD 1)
          let textLower := strLower (st.dataEntries.getD i "")
          let bonus : ℚ := dataAiKeywords.foldl
            (fun b kw => if strContains textLower kw then b + 0.05 else b) 0
          let finalScore : K := h.1 * (w : K) * (((1 + min bonus 0.3 : ℚ) : K))
          acc ++ [{ meta := md, score := finalScore, originalScore := h.1,
                    typeWeight := (w : K), keywordBonus := (bonus : K),
                    text := st.dataEntries.getD i "",
                    searchMethod := "semantic_similarity_data_ai",
                    semanticScore := 0, keywordScore := 0, combinedScore := 0 }]
      else acc)
    []
  (sortDesc (fun r => r.score) results).take topK

/-- The inverse document frequency `log((N - df + 0.5)/(df + 0.5))`; its
argument is always rational, so this is `lnq` of a rational. -/
def bm25Idf (lnq : ℚ → K) (n df : Nat) : K :=
  lnq (((n : ℚ) - (df : ℚ) + 0.5) / ((df : ℚ) + 0.5))

/-- The rational factor of one BM25 term, `tf*(k1+1) / (tf + k1*(1 - b + b*dl/avg))`,
with `k1 = 1.5` and `b = 0.75` (division by a zero average cannot arise
from a consistently built index, and is the total `ℚ` division here). -/
def bm25Frac (tf dl avg : ℚ) : ℚ :=
  tf * (1.5 + 1) / (tf + 1.5 * (1 - 0.75 + 0.75 * dl / avg))

/-- One iteration of the token loop of `_calculate_bm25_scores`: a token
absent from the inverted index is skipped; for a present token, each
posted document receives `bm25Idf * bm25Frac` of its term frequency and
length added to its score. -/
def bm25Step (lnq : ℚ → K) (st : DBState) (scores : List K) (token : String) : List K :=
  match alookup st.keywordIndex token with
  | none => scores
  | some docsWithToken =>
    docsWithToken.foldl
      (fun sc docId =>
        sc.set docId (sc.getD docId 0
          + bm25Idf lnq st.dataEntries.length docsWithToken.length *
            ((bm25Frac (countOcc token (st.docFrequencies.getD docId []))
                (st.docLengths.getD docId 0) st.avgDocLength) : K)))
      scores

/-- `_calculate_bm25_scores(query_tokens)`: starting from `[0.0] * N`, fold
`bm25Step` over the query tokens. -/
def calculateBm25Scores (lnq : ℚ → K) (st : DBState) (queryTokens : List String) : List K :=
  queryTokens.foldl (bm25Step lnq st) (List.replicate st.dataEntries.length 0)

/-- The `candidate_docs` intermediate of `_keyword_search`: the documents
with score strictly above `min_score`, sorted by score descending. -/
def keywordCandidates (lnq : ℚ → K) (st : DBState) (queryTokens : List String)
    (minScore : K) : List (Nat × K) :=
  sortDesc (fun p => p.2)
    ((enumFrom 0 (calculateBm25Scores lnq st queryTokens)).filter (fun p => minScore < p.2))

/-- `_keyword_search`: build the keyword index if it is empty, tokenize the
query, score with BM25, filter and sort candidates, over-fetch `top_k * 2`,
apply the profile and type filters, truncate to `top_k`.  Returns the
(possibly updated) state alongside the results. -/
def keywordSearch (lnq : ℚ → K) (st : DBState) (query : String) (profileName : Option String)
    (dataTypes : Option (List String)) (topK : Nat) (minScore : K) :
    List (SearchResult K) × DBState :=
  let st := if st.keywordIndex = [] then buildKeywordIndex st else st
  let queryTokens := tokenize query
  let results := ((keywordCandidates lnq st queryTokens minScore).take (topK * 2)).foldl
    (fun acc p =>
      if st.metadata.length ≤ p.1 then acc
      else
        let md := st.metadata.getD p.1 defaultMeta
        if skipByProfile profileName md then acc
        else if skipByTypes dataTypes md then acc
        else acc ++ [{ meta := md, score := p.2, originalScore := 0, typeWeight := 0,
                       keywordBonus := 0, text := st.dataEntries.getD p.1 "",
                       searchMethod := "keyword_bm25",
                       semanticScore := 0, keywordScore := 0, combinedScore := 0 }])
    []
  (results.take topK, st)

/-- `_get_result_key`. -/
def resultKey (r : SearchResult K) : String :=
  r.meta.profileName ++ "_" ++ r.meta.category ++ "_" ++ r.meta.timestamp

/-- The first merge loop of `_hybrid_search` over the insertion-ordered
dict `combined_results` keyed by `_get_result_key`: a semantic result
enters with weight 0.7 and keyword score 0. -/
def mergeSemantic (acc : List (String × SearchResult K)) (r : SearchResult K) :
    List (String × SearchResult K) :=
  assocSet acc (resultKey r)
    { r with semanticScore := r.score, keywordScore := 0, combinedScore := r.score * 0.7 }

/-- The second merge loop of `_hybrid_search`: a keyword result updates an
existing entry of the same key (weight 0.3 against the stored semantic
score) or enters as a new keyword-only entry. -/
def mergeKeyword (acc : List (String × SearchResult K)) (r : SearchResult K) :
    List (String × SearchResult K) :=
  match alookup acc (resultKey r) with
  | some old =>
    assocSet acc (resultKey r)
      { old with keywordScore := r.score,
                 combinedScore := old.semanticScore * 0.7 + r.score * 0.3 }
  | none =>
    acc ++ [(resultKey r,
      { r with semanticScore := 0, keywordScore := r.score,
               combinedScore := r.score * 0.3 })]

/-- `_hybrid_search`: run the two searches with over-fetch `top_k * 2` and
relaxed thresholds (`0.7 * min_score` semantic, `0.5 * min_score` keyword),
merge via `mergeSemantic` then `mergeKeyword`, sort by combined score
descending, overwrite `score` with the combined score, truncate to `top_k`. -/
def hybridSearch (lnq : ℚ → K) (st : DBState) (hits : List (K × Int)) (query : String)
    (profileName : Option String) (dataTypes : Option (List String)) (topK : Nat)
    (minScore : K) : List (SearchResult K) × DBState :=
  let semanticResults := semanticSearch st hits profileName dataTypes (topK * 2)
    (minScore * 0.7)
  let kw := keywordSearch lnq st query profileName dataTypes (topK * 2) (minScore * 0.5)
  let combined := kw.1.foldl mergeKeyword (semanticResults.foldl mergeSemantic [])
  let finalResults := sortDesc (fun r => r.combinedScore) (combined.map Prod.snd)
  let finalResults := finalResults.map
    (fun r => { r with score := r.combinedScore, searchMethod := "hybrid_semantic_keyword" })
  (finalResults.take topK, kw.2)

/-- `search_unified_profile`: empty index short-circuits to `[]`; otherwise
the query is expanded and dispatched on `search_mode`, any unrecognised
mode falling back to hybrid.  `hits` models the FAISS response for the
expanded query's embedding (the expansion reaches the semantic path only
through the external encoder). -/
def searchUnifiedProfile (lnq : ℚ → K) (st : DBState) (hits : List (K × Int)) (query : String)
    (profileName : Option String) (dataTypes : Option (List String)) (topK : Nat)
    (minScore : K) (searchMode : String) : List (SearchResult K) × DBState :=
  if st.indexTexts.length = 0 then ([], st)
  else
    let expanded := expandQuery query
    if searchMode = "hybrid" then
      hybridSearch lnq st hits expanded profileName dataTypes topK minScore
    else if searchMode = "semantic" then
      (semanticSearch st hits profileName dataTypes topK minScore, st)
    else if searchMode = "keyword" then
      keywordSearch lnq st expanded profileName dataTypes topK minScore
    else
      hybridSearch lnq st hits expanded profileName dataTypes topK minScore

/-! ## Concrete fixtures used by the closed theorems -/

/-- A profile carrying none of the nine category keys (e.g. `{}`). -/
def emptyProfile : ProfileData :=
  { personalInfo := none, education := [], workExperience := [], projects := [],
    skills := [], certifications := [], awards := [], careerGoals := none, interests := [] }

/-- Fixture profile with a single career-goals entry. -/
def profCareer : ProfileData :=
  { emptyProfile with
    careerGoals := some { shortTerm := "hello", longTerm := "world",
                          targetCompanies := [], preferredRoles := [] } }

/-- Fixture profile of owner `a`: one interests entry "alphaa alphaa". -/
def profAlpha : ProfileData := { emptyProfile with interests := ["alphaa", "alphaa"] }

/-- Fixture profile of owner `b`: one interests entry "bravoo bravoo". -/
def profBravo : ProfileData := { emptyProfile with interests := ["bravoo", "bravoo"] }

/-- State after syncing `profAlpha` as "a" and then `profBravo` as "b". -/
def stAlphaBravo : DBState :=
  (addProfileToVectordb (addProfileToVectordb emptyDB profAlpha "a" "T1").2 profBravo "b" "T2").2

/-- State after additionally re-syncing `profAlpha` as "a". -/
def stResynced : DBState := (addProfileToVectordb stAlphaBravo profAlpha "a" "T3").2

/-- State after syncing `profCareer` as profile "p" into an empty engine. -/
def stCareer : DBState := (addProfileToVectordb emptyDB profCareer "p" "T").2

/-- The metadata row of the single `stCareer` entry. -/
def metaCareer : Meta :=
  { category := "career_goals", profileName := "p", timestamp := "T", arrayIndex := none }

/-- The searchable text of the single `stCareer` entry. -/
def textCareer : String := "단기목표: hello 장기목표: world"

/-- The semantic-path result of the fixture query against `stCareer` when
the index reports inner-product score 2/25 for entry 0. -/
def rCareerSem : SearchResult K :=
  { meta := metaCareer, score := 2/25, originalScore := 2/25, typeWeight := 1,
    keywordBonus := 0, text := textCareer, searchMethod := "semantic_similarity_data_ai",
    semanticScore := 0, keywordScore := 0, combinedScore := 0 }

/-- The hybrid result the fixture search returns: combined score
`(2/25) * 0.7 = 7/125`, below the requested `min_score = 1/10`. -/
def rCareerHybrid : SearchResult K :=
  { meta := metaCareer, score := 7/125, originalScore := 2/25, typeWeight := 1,
    keywordBonus := 0, text := textCareer, searchMethod := "hybrid_semantic_keyword",
    semanticScore := 2/25, keywordScore := 0, combinedScore := 7/125 }

/-- Two-document corpus whose keyword index is built from scratch (the
state a freshly loaded engine reaches on its first keyword search). -/
def stTwoDocs : DBState :=
  buildKeywordIndex { emptyDB with dataEntries := ["tok fil", "tok tok"] }

/-- Four-document corpus: the query token `tok` appears in half the corpus. -/
def stFourDocs : DBState :=
  buildKeywordIndex
    { emptyDB with dataEntries := ["tok fil", "tok tok", "aaa bbb", "ccc ddd"] }

/-! ## Derived notions used in the statements -/

/-- The parallel-array invariant: `len(data_entries) == len(metadata) == index.ntotal`. -/
def aligned (st : DBState) : Prop :=
  st.dataEntries.length = st.metadata.length ∧ st.metadata.length = st.indexTexts.length

/-- The metadata rows belonging to one profile. -/
def entriesFor (st : DBState) (name : String) : List Meta :=
  st.metadata.filter (fun m => m.profileName = name)

/-- The (text, metadata) rows belonging to every other profile, in order. -/
def otherRows (st : DBState) (name : String) : List (String × Meta) :=
  (st.dataEntries.zip st.metadata).filter (fun p => p.2.profileName ≠ name)

/-- The ascending list of document ids (starting at `off`) whose tokenized
text contains `t`; characterises the posting lists of a built index. -/
def occList (t : String) : List String → Nat → List Nat
  | [], _ => []
  | x :: rest, off =>
      (if t ∈ tokenize x then [off] else []) ++ occList t rest (off + 1)

/-- Modelled from the spec: per-document BM25 score as section 4.2 words it
(`score(query_tokens)`, classic BM25 with `k1 = 1.5`, `b = 0.75`): the sum
over the query tokens that occur in document `d` of
`idf(t) * tf(t,d)*(k1+1) / (tf(t,d) + k1*(1 - b + b*len(d)/avg_len))`, with
`idf(t) = ln((N - df(t) + 0.5)/(df(t) + 0.5))`, `N` the corpus size and
`df(t)` the number of documents containing `t`.  This definition follows
the specification text over the corpus `texts` and is compared against the
source-derived `calculateBm25Scores`. -/
def specBm25 (lnq : ℚ → K) (texts : List String) (queryTokens : List String) (d : Nat) : K :=
  let toks := tokenize (texts.getD d "")
  let avg : ℚ := avgOf ((texts.map tokenize).map List.length)
  (queryTokens.map (fun t =>
    let tf : ℚ := (countOcc t toks : ℚ)
    if tf = 0 then 0
    else
      let df := ((List.range texts.length).filter
        (fun i => t ∈ tokenize (texts.getD i ""))).length
      bm25Idf lnq texts.length df * ((bm25Frac tf (toks.length : ℚ) avg) : K))).sum

/-! ## General lemmas about the helpers -/

theorem alookup_eq_none {α β : Type} [DecidableEq α] (l : List (α × β)) (k : α) :
    alookup l k = none ↔ k ∉ l.map Prod.fst := by
  induction l with
  | nil => simp [alookup]
  | cons p rest ih =>
    obtain ⟨a, b⟩ := p
    simp only [alookup, List.map_cons, List.mem_cons]
    by_cases h : a = k
    · simp [h]
    · simp only [if_neg h, ih]
      constructor
      · rintro hk (h1 | h1)
        · exact h h1.symm
        · exact hk h1
      · exact fun hk h1 => hk (Or.inr h1)

theorem mem_assocSet {α β : Type} [DecidableEq α] (l : List (α × β)) (k : α) (v : β)
    (p : α × β) (hp : p ∈ assocSet l k v) : p ∈ l ∨ p = (k, v) := by
  induction l with
  | nil => simpa [assocSet] using hp
  | cons q rest ih =>
    obtain ⟨a, b⟩ := q
    by_cases h : a = k
    · simp only [assocSet, if_pos h] at hp
      rcases List.mem_cons.mp hp with h1 | h1
      · exact Or.inr h1
      · exact Or.inl (List.mem_cons_of_mem _ h1)
    · simp only [assocSet, if_neg h] at hp
      rcases List.mem_cons.mp hp with h1 | h1
      · exact Or.inl (h1 ▸ List.mem_cons_self _ _)
      · rcases ih h1 with h2 | h2
        · exact Or.inl (List.mem_cons_of_mem _ h2)
        · exact Or.inr h2

theorem alookup_mem {α β : Type} [DecidableEq α] {l : List (α × β)} {k : α} {v : β}
    (h : alookup l k = some v) : (k, v) ∈ l := by
  induction l with
  | nil => simp [alookup] at h
  | cons p rest ih =>
    obtain ⟨a, b⟩ := p
    by_cases ha : a = k
    · rw [alookup, if_pos ha] at h
      rw [Option.some.injEq] at h
      rw [← h, ← ha]
      exact List.mem_cons_self _ _
    · rw [alookup, if_neg ha] at h
      exact List.mem_cons_of_mem _ (ih h)

theorem alookup_isSome_mem_keys {α β : Type} [DecidableEq α] {l : List (α × β)} {k : α}
    {v : β} (h : alookup l k = some v) : k ∈ l.map Prod.fst :=
  List.mem_map.mpr ⟨(k, v), alookup_mem h, rfl⟩

theorem assocSet_keys_of_mem {α β : Type} [DecidableEq α] (l : List (α × β)) (k : α)
    (v : β) (h : k ∈ l.map Prod.fst) :
    (assocSet l k v).map Prod.fst = l.map Prod.fst := by
  induction l with
  | nil => simp at h
  | cons p rest ih =>
    obtain ⟨a, b⟩ := p
    by_cases ha : a = k
    · subst ha
      simp [assocSet]
    · simp only [List.map_cons, List.mem_cons] at h
      rcases h with h | h
      · exact absurd h.symm ha
      · simp [assocSet, if_neg ha, ih h]

theorem assocSet_keys_of_not_mem {α β : Type} [DecidableEq α] (l : List (α × β)) (k : α)
    (v : β) (h : k ∉ l.map Prod.fst) :
    (assocSet l k v).map Prod.fst = l.map Prod.fst ++ [k] := by
  induction l with
  | nil => simp [assocSet]
  | cons p rest ih =>
    obtain ⟨a, b⟩ := p
    simp only [List.map_cons, List.mem_cons] at h
    push_neg at h
    have ha : ¬a = k := fun e => h.1 e.symm
    simp [assocSet, if_neg ha, ih h.2]

theorem insertDesc_perm (key : α → K) (x : α) (l : List α) :
    (insertDesc key x l).Perm (x :: l) := by
  induction l with
  | nil => exact List.Perm.refl _
  | cons y ys ih =>
    by_cases h : key y < key x
    · rw [insertDesc, if_pos h]
    · rw [insertDesc, if_neg h]
      exact (ih.cons y).trans (List.Perm.swap x y ys)

theorem sortDesc_foldl_perm (key : α → K) (l acc : List α) :
    (l.foldl (fun a x => insertDesc key x a) acc).Perm (acc ++ l) := by
  induction l generalizing acc with
  | nil => simp
  | cons x xs ih =>
    refine (ih (insertDesc key x acc)).trans ?h
    refine (((insertDesc_perm key x acc).append_right xs).trans ?h2)
    exact List.perm_middle.symm.trans (List.Perm.refl _)

theorem sortDesc_perm (key : α → K) (l : List α) : (sortDesc key l).Perm l := by
  simpa [sortDesc] using sortDesc_foldl_perm key l []

theorem mem_sortDesc {key : α → K} {l : List α} {a : α} :
    a ∈ sortDesc key l ↔ a ∈ l :=
  (sortDesc_perm key l).mem_iff

/-! ## Purge lemmas -/

theorem entriesFor_remove (st : DBState) (name : String) :
    entriesFor (removeProfileEntries st name) name = [] := by
  unfold removeProfileEntries
  by_cases h1 : st.metadata = []
  · rw [if_pos h1]
    unfold entriesFor
    rw [h1]
    rfl
  · rw [if_neg h1]
    by_cases h2 : st.metadata.filter (fun m => m.profileName = name) = []
    · rw [if_pos h2]
      exact h2
    · rw [if_neg h2]
      unfold entriesFor rebuildFaissIndex
      rw [List.filter_eq_nil_iff]
      intro m hm
      simp only [List.mem_map] at hm
      obtain ⟨p, hp, hpm⟩ := hm
      simp only [List.mem_filter, decide_eq_true_eq] at hp
      simp only [decide_eq_true_eq]
      rw [← hpm]
      exact hp.2

theorem removeProfileEntries_keywordIndex (st : DBState) (name : String) :
    (removeProfileEntries st name).keywordIndex = st.keywordIndex := by
  unfold removeProfileEntries
  by_cases h1 : st.metadata = []
  · rw [if_pos h1]
  · rw [if_neg h1]
    by_cases h2 : st.metadata.filter (fun m => m.profileName = name) = []
    · rw [if_pos h2]
    · rw [if_neg h2]
      rfl

theorem removeProfileEntries_docTables (st : DBState) (name : String) :
    (removeProfileEntries st name).docFrequencies = st.docFrequencies ∧
    (removeProfileEntries st name).docLengths = st.docLengths ∧
    (removeProfileEntries st name).avgDocLength = st.avgDocLength ∧
    (removeProfileEntries st name).entryFiles = st.entryFiles := by
  unfold removeProfileEntries
  by_cases h1 : st.metadata = []
  · rw [if_pos h1]
    exact ⟨rfl, rfl, rfl, rfl⟩
  · rw [if_neg h1]
    by_cases h2 : st.metadata.filter (fun m => m.profileName = name) = []
    · rw [if_pos h2]
      exact ⟨rfl, rfl, rfl, rfl⟩
    · rw [if_neg h2]
      exact ⟨rfl, rfl, rfl, rfl⟩

/-! ## Claim C1 -/

set_option maxRecDepth 100000 in
/-- C1: the claim asserts that every entry of the vector index has exactly
one corresponding row of the keyword document tables at the same position
in every reachable state, the purge inside a sync rebuilding both indices.
The code rebuilds only the FAISS index: after syncing profiles "a" and "b"
and re-syncing "a", the purge leaves the keyword tables untouched (first
three conjuncts), momentarily one vector against two keyword rows, and in
the final state vector position 0 holds profile "b"'s text "bravoo bravoo"
while keyword row 0 still counts the purged tokens ["alphaa", "alphaa"]
(its "bravoo" count is 0) and the posting list of "bravoo" points at
document 1, which now holds "alphaa alphaa". -/
theorem C1_keyword_tables_stale_after_purge :
    (removeProfileEntries stAlphaBravo "a").keywordIndex = stAlphaBravo.keywordIndex ∧
    (removeProfileEntries stAlphaBravo "a").docFrequencies = stAlphaBravo.docFrequencies ∧
    (removeProfileEntries stAlphaBravo "a").docLengths = stAlphaBravo.docLengths ∧
    (removeProfileEntries stAlphaBravo "a").indexTexts.length = 1 ∧
    (removeProfileEntries stAlphaBravo "a").docLengths.length = 2 ∧
    stResynced.indexTexts.getD 0 "" = "bravoo bravoo" ∧
    tokenize (stResynced.dataEntries.getD 0 "") = ["bravoo", "bravoo"] ∧
    stResynced.docFrequencies.getD 0 [] = ["alphaa", "alphaa"] ∧
    countOcc "bravoo" (stResynced.docFrequencies.getD 0 []) = 0 ∧
    alookup stResynced.keywordIndex "bravoo" = some [1] ∧
    tokenize (stResynced.dataEntries.getD 1 "") = ["alphaa", "alphaa"] := by
  decide

/-! ## Claim C7 -/

/-- C7: the claim asserts that any load failure at construction is caught
and the engine starts with an empty corpus, never a partially loaded state.
The failure is indeed caught (and a missing or unreadable index file does
start empty, last two conjuncts), but when the index file loads and the
metadata file then fails to parse, the engine keeps the loaded vector
index next to empty `data_entries`/`metadata`: a partially loaded state,
contradicting the claim and the code's own "starting fresh" log line. -/
theorem C7_load_failure_leaves_partial_state :
    loadExistingDb true (some ["hello"]) none emptyDB
        = { emptyDB with indexTexts := ["hello"] } ∧
    (getDbStats (loadExistingDb true (some ["hello"]) none emptyDB)).indexSize = 1 ∧
    (getDbStats (loadExistingDb true (some ["hello"]) none emptyDB)).totalEntries = 0 ∧
    loadExistingDb true none none emptyDB = emptyDB ∧
    loadExistingDb false anyIndex anyMeta emptyDB = emptyDB := by
  exact ⟨rfl, rfl, rfl, rfl, rfl⟩

/-! ## Claim C10 -/

/-- C10: syncing a profile that carries none of the nine category keys
returns an empty entry-id list, purges all existing entries of that
profile name, and adds no new entries to any index: the sync equals the
pure purge, the purged state holds no metadata row of that profile, and
the keyword index gains nothing (the purge leaves it untouched). -/
theorem C10_empty_profile_sync_is_pure_deletion (st : DBState) (name ts : String) :
    derivedEntries emptyProfile = [] ∧
    addProfileToVectordb st emptyProfile name ts = ([], removeProfileEntries st name) ∧
    entriesFor (addProfileToVectordb st emptyProfile name ts).2 name = [] ∧
    (addProfileToVectordb st emptyProfile name ts).2.keywordIndex = st.keywordIndex := by
  refine ⟨rfl, rfl, ?e, ?k⟩
  · exact entriesFor_remove st name
  · exact removeProfileEntries_keywordIndex st name

/-! ## Alignment lemmas -/

theorem addEntry_arrays (st : DBState) (t c p ts : String) (ix : Option Nat) (d : Payload) :
    (addEntry st t c p ts ix d).2.dataEntries = st.dataEntries ++ [t] ∧
    (addEntry st t c p ts ix d).2.metadata
      = st.metadata ++ [{ category := c, profileName := p, timestamp := ts, arrayIndex := ix }] ∧
    (addEntry st t c p ts ix d).2.indexTexts = st.indexTexts ++ [t] := by
  exact ⟨rfl, rfl, rfl⟩

theorem aligned_addEntry (st : DBState) (h : aligned st) (t c p ts : String)
    (ix : Option Nat) (d : Payload) : aligned (addEntry st t c p ts ix d).2 := by
  obtain ⟨h1, h2⟩ := h
  obtain ⟨e1, e2, e3⟩ := addEntry_arrays st t c p ts ix d
  constructor
  · rw [e1, e2, List.length_append, List.length_append, h1, List.length_singleton,
        List.length_singleton]
  · rw [e2, e3, List.length_append, List.length_append, h2, List.length_singleton,
        List.length_singleton]

theorem aligned_remove (st : DBState) (name : String) (h : aligned st) :
    aligned (removeProfileEntries st name) := by
  unfold removeProfileEntries
  by_cases h1 : st.metadata = []
  · rw [if_pos h1]; exact h
  · rw [if_neg h1]
    by_cases h2 : st.metadata.filter (fun m => m.profileName = name) = []
    · rw [if_pos h2]; exact h
    · rw [if_neg h2]
      unfold rebuildFaissIndex aligned
      constructor
      · simp
      · simp

theorem aligned_addDerived (name ts : String) (entries : List DerivedEntry) :
    ∀ acc : List Nat × DBState, aligned acc.2 →
      aligned (addDerivedEntries name ts entries acc).2 := by
  induction entries with
  | nil => intro acc h; exact h
  | cons e es ih =>
    intro acc h
    unfold addDerivedEntries
    rw [List.foldl_cons]
    exact ih _ (aligned_addEntry acc.2 h e.text e.category name ts e.arrayIndex e.payload)

theorem aligned_sync (st : DBState) (p : ProfileData) (name ts : String) (h : aligned st) :
    aligned (addProfileToVectordb st p name ts).2 :=
  aligned_addDerived name ts (derivedEntries p) _ (aligned_remove st name h)

theorem buildKeywordIndex_arrays (st : DBState) :
    (buildKeywordIndex st).dataEntries = st.dataEntries ∧
    (buildKeywordIndex st).metadata = st.metadata ∧
    (buildKeywordIndex st).indexTexts = st.indexTexts :=
  ⟨rfl, rfl, rfl⟩

theorem keywordSearch_state (lnq : ℚ → K) (st : DBState) (q : String) (pf : Option String)
    (dt : Option (List String)) (k : Nat) (ms : K) :
    (keywordSearch lnq st q pf dt k ms).2
      = if st.keywordIndex = [] then buildKeywordIndex st else st := rfl

theorem hybridSearch_state (lnq : ℚ → K) (st : DBState) (hits : List (K × Int)) (q : String)
    (pf : Option String) (dt : Option (List String)) (k : Nat) (ms : K) :
    (hybridSearch lnq st hits q pf dt k ms).2
      = if st.keywordIndex = [] then buildKeywordIndex st else st := rfl

theorem aligned_buildOrKeep (st : DBState) (h : aligned st) :
    aligned (if st.keywordIndex = [] then buildKeywordIndex st else st) := by
  by_cases hk : st.keywordIndex = []
  · rw [if_pos hk]
    exact h
  · rw [if_neg hk]
    exact h

theorem searchUnifiedProfile_state (lnq : ℚ → K) (st : DBState) (hits : List (K × Int))
    (q : String) (pf : Option String) (dt : Option (List String)) (k : Nat) (ms : K)
    (mode : String) :
    (searchUnifiedProfile lnq st hits q pf dt k ms mode).2 = st ∨
    (searchUnifiedProfile lnq st hits q pf dt k ms mode).2
      = if st.keywordIndex = [] then buildKeywordIndex st else st := by
  unfold searchUnifiedProfile
  by_cases h0 : st.indexTexts.length = 0
  · rw [if_pos h0]; exact Or.inl rfl
  · rw [if_neg h0]
    by_cases h1 : mode = "hybrid"
    · rw [if_pos h1]; exact Or.inr rfl
    · rw [if_neg h1]
      by_cases h2 : mode = "semantic"
      · rw [if_pos h2]; exact Or.inl rfl
      · rw [if_neg h2]
        by_cases h3 : mode = "keyword"
        · rw [if_pos h3]; exact Or.inr rfl
        · rw [if_neg h3]; exact Or.inr rfl

/-! ## Claim C8 -/

/-- C8: starting from a state where `len(data_entries) = len(metadata) =
index.ntotal`, every operation preserves the equality — adding one entry,
purging a profile with FAISS rebuild, a full profile sync, and searching
(which at most rebuilds the keyword tables) — and `get_db_stats` reports
`total_entries` equal to `index_size`. -/
theorem C8_parallel_arrays_invariant (lnq : ℚ → ℝ) (st : DBState) (h : aligned st)
    (text category profileName ts : String) (ix : Option Nat) (data : Payload)
    (p : ProfileData) (name ts2 : String) (hits : List (ℝ × Int)) (query : String)
    (pf : Option String) (dt : Option (List String)) (k : Nat) (ms : ℝ) (mode : String) :
    aligned (addEntry st text category profileName ts ix data).2 ∧
    aligned (removeProfileEntries st name) ∧
    aligned (addProfileToVectordb st p name ts2).2 ∧
    aligned (searchUnifiedProfile lnq st hits query pf dt k ms mode).2 ∧
    (getDbStats st).totalEntries = (getDbStats st).indexSize := by
  refine ⟨aligned_addEntry st h text category profileName ts ix data,
          aligned_remove st name h, aligned_sync st p name ts2 h, ?s, ?g⟩
  · rcases searchUnifiedProfile_state lnq st hits query pf dt k ms mode with hs | hs
    · rw [hs]; exact h
    · rw [hs]; exact aligned_buildOrKeep st h
  · exact h.1.trans h.2

/-- Closed witness for C8 at a concrete reachable state. -/
theorem C8_parallel_arrays_invariant_witness :
    aligned (removeProfileEntries stCareer "p") ∧
    (getDbStats stCareer).totalEntries = (getDbStats stCareer).indexSize := by
  have h := C8_parallel_arrays_invariant (fun q => Real.log (q : ℝ)) stCareer
    ⟨by decide, by decide⟩ "t" "c" "p" "ts" none Payload.emptyDict emptyProfile "p" "ts2"
    [] "q" none none 5 1 "hybrid"
  exact ⟨h.2.1, h.2.2.2.2⟩

/-! ## Claim C9 -/

/-- C9: for every `entry_id` at or beyond the number of stored entries,
`get_entry_with_data` returns the empty dict without raising; for every
in-range `entry_id` it returns the stored metadata row extended with the
entry's text and its payload, the payload being the empty dict when the
payload file is absent (`alookup ... = none`) or unparsable
(`alookup ... = some none`). -/
theorem C9_entry_lookup_bounds (st : DBState) (entryId : Nat)
    (hal : st.dataEntries.length = st.metadata.length) :
    (st.metadata.length ≤ entryId → getEntryWithData st entryId = EntryLookup.emptyDict) ∧
    (∀ h : entryId < st.metadata.length,
       getEntryWithData st entryId =
         EntryLookup.found (st.metadata.get ⟨entryId, h⟩) (loadEntryData st entryId)
           (st.dataEntries.get ⟨entryId, by omega⟩)) ∧
    (alookup st.entryFiles entryId = none → loadEntryData st entryId = Payload.emptyDict) ∧
    (alookup st.entryFiles entryId = some none →
       loadEntryData st entryId = Payload.emptyDict) := by
  refine ⟨?hout, ?hin, ?hmiss, ?hbad⟩
  · intro h
    unfold getEntryWithData
    rw [if_pos h]
  · intro h
    unfold getEntryWithData
    rw [if_neg (by omega)]
    have hm : st.metadata.getD entryId defaultMeta = st.metadata.get ⟨entryId, h⟩ := by
      rw [List.getD_eq_getElem _ _ h]
      simp [List.get_eq_getElem]
    have hd : st.dataEntries.getD entryId "" = st.dataEntries.get ⟨entryId, by omega⟩ := by
      rw [List.getD_eq_getElem _ _ (by omega)]
      simp [List.get_eq_getElem]
    rw [hm, hd]
  · intro h
    unfold loadEntryData
    rw [h]
  · intro h
    unfold loadEntryData
    rw [h]

/-- Closed witness for C9: out-of-range and in-range lookups on a concrete
one-entry state. -/
theorem C9_entry_lookup_bounds_witness :
    getEntryWithData stCareer 5 = EntryLookup.emptyDict ∧
    getEntryWithData stCareer 0 =
      EntryLookup.found (stCareer.metadata.get ⟨0, by decide⟩) (loadEntryData stCareer 0)
        (stCareer.dataEntries.get ⟨0, by decide⟩) := by
  refine ⟨(C9_entry_lookup_bounds stCareer 5 (by decide)).1 (by decide), ?f⟩
  exact (C9_entry_lookup_bounds stCareer 0 (by decide)).2.1 (by decide)

/-! ## Sync lemmas for idempotence -/

theorem addDerived_metadata (name ts : String) (entries : List DerivedEntry) :
    ∀ acc : List Nat × DBState,
      (addDerivedEntries name ts entries acc).2.metadata
        = acc.2.metadata ++ entries.map (fun e =>
            { category := e.category, profileName := name, timestamp := ts,
              arrayIndex := e.arrayIndex }) := by
  induction entries with
  | nil => intro acc; simp [addDerivedEntries]
  | cons e es ih =>
    intro acc
    unfold addDerivedEntries
    rw [List.foldl_cons]
    have h := ih (acc.1 ++ [(addEntry acc.2 e.text e.category name ts e.arrayIndex e.payload).1],
      (addEntry acc.2 e.text e.category name ts e.arrayIndex e.payload).2)
    unfold addDerivedEntries at h
    rw [h]
    obtain ⟨-, h2, -⟩ := addEntry_arrays acc.2 e.text e.category name ts e.arrayIndex e.payload
    rw [h2]
    simp

theorem addDerived_ids_length (name ts : String) (entries : List DerivedEntry) :
    ∀ acc : List Nat × DBState,
      (addDerivedEntries name ts entries acc).1.length = acc.1.length + entries.length := by
  induction entries with
  | nil => intro acc; simp [addDerivedEntries]
  | cons e es ih =>
    intro acc
    unfold addDerivedEntries
    rw [List.foldl_cons]
    have h := ih (acc.1 ++ [(addEntry acc.2 e.text e.category name ts e.arrayIndex e.payload).1],
      (addEntry acc.2 e.text e.category name ts e.arrayIndex e.payload).2)
    unfold addDerivedEntries at h
    rw [h]
    simp
    omega

theorem sync_metadata (st : DBState) (p : ProfileData) (name ts : String) :
    (addProfileToVectordb st p name ts).2.metadata
      = (removeProfileEntries st name).metadata
        ++ (derivedEntries p).map (fun e =>
             { category := e.category, profileName := name, timestamp := ts,
               arrayIndex := e.arrayIndex }) :=
  addDerived_metadata name ts (derivedEntries p) ([], removeProfileEntries st name)

theorem entriesFor_sync (st : DBState) (p : ProfileData) (name ts : String) :
    entriesFor (addProfileToVectordb st p name ts).2 name
      = (derivedEntries p).map (fun e =>
          { category := e.category, profileName := name, timestamp := ts,
            arrayIndex := e.arrayIndex }) := by
  have hrem := entriesFor_remove st name
  unfold entriesFor at hrem ⊢
  rw [sync_metadata, List.filter_append, hrem, List.nil_append]
  rw [List.filter_eq_self]
  intro m hm
  simp only [List.mem_map] at hm
  obtain ⟨e, -, he⟩ := hm
  rw [← he]
  simp

theorem otherRows_remove (st : DBState) (name : String) :
    otherRows (removeProfileEntries st name) name = otherRows st name := by
  unfold removeProfileEntries
  by_cases h1 : st.metadata = []
  · rw [if_pos h1]
  · rw [if_neg h1]
    by_cases h2 : st.metadata.filter (fun m => m.profileName = name) = []
    · rw [if_pos h2]
    · rw [if_neg h2]
      unfold otherRows rebuildFaissIndex
      show ((((st.dataEntries.zip st.metadata).filter _).map Prod.fst).zip
              (((st.dataEntries.zip st.metadata).filter _).map Prod.snd)).filter _ = _
      rw [← List.unzip_fst, ← List.unzip_snd, List.zip_unzip]
      rw [List.filter_filter]
      simp

theorem remove_rowAligned (st : DBState) (name : String)
    (h : st.dataEntries.length = st.metadata.length) :
    (removeProfileEntries st name).dataEntries.length
      = (removeProfileEntries st name).metadata.length := by
  unfold removeProfileEntries
  by_cases h1 : st.metadata = []
  · rw [if_pos h1]; exact h
  · rw [if_neg h1]
    by_cases h2 : st.metadata.filter (fun m => m.profileName = name) = []
    · rw [if_pos h2]; exact h
    · rw [if_neg h2]
      simp [rebuildFaissIndex]

theorem otherRows_addEntry (st : DBState) (t c ts : String) (name : String)
    (ix : Option Nat) (d : Payload) (h : st.dataEntries.length = st.metadata.length) :
    otherRows (addEntry st t c name ts ix d).2 name = otherRows st name := by
  obtain ⟨e1, e2, -⟩ := addEntry_arrays st t c name ts ix d
  unfold otherRows
  rw [e1, e2, List.zip_append h, List.filter_append]
  simp

theorem addDerived_otherRows (name ts : String) (entries : List DerivedEntry) :
    ∀ acc : List Nat × DBState,
      acc.2.dataEntries.length = acc.2.metadata.length →
      otherRows (addDerivedEntries name ts entries acc).2 name = otherRows acc.2 name ∧
      (addDerivedEntries name ts entries acc).2.dataEntries.length
        = (addDerivedEntries name ts entries acc).2.metadata.length := by
  induction entries with
  | nil => intro acc h; exact ⟨rfl, h⟩
  | cons e es ih =>
    intro acc h
    unfold addDerivedEntries
    rw [List.foldl_cons]
    have hstep : (addEntry acc.2 e.text e.category name ts e.arrayIndex e.payload).2.dataEntries.length
        = (addEntry acc.2 e.text e.category name ts e.arrayIndex e.payload).2.metadata.length := by
      obtain ⟨e1, e2, -⟩ := addEntry_arrays acc.2 e.text e.category name ts e.arrayIndex e.payload
      rw [e1, e2]
      simp [h]
    have hrec := ih (acc.1 ++ [(addEntry acc.2 e.text e.category name ts e.arrayIndex e.payload).1],
      (addEntry acc.2 e.text e.category name ts e.arrayIndex e.payload).2) hstep
    unfold addDerivedEntries at hrec
    refine ⟨hrec.1.trans ?o, hrec.2⟩
    exact otherRows_addEntry acc.2 e.text e.category ts name e.arrayIndex e.payload h

theorem sync_otherRows (st : DBState) (p : ProfileData) (name ts : String)
    (h : st.dataEntries.length = st.metadata.length) :
    otherRows (addProfileToVectordb st p name ts).2 name = otherRows st name ∧
    (addProfileToVectordb st p name ts).2.dataEntries.length
      = (addProfileToVectordb st p name ts).2.metadata.length := by
  have hrem := remove_rowAligned st name h
  have hd := addDerived_otherRows name ts (derivedEntries p)
    ([], removeProfileEntries st name) hrem
  exact ⟨hd.1.trans (otherRows_remove st name), hd.2⟩

/-! ## Claim C5 -/

/-- C5: syncing the same profile twice in succession (timestamps `ts1`,
`ts2` are the per-call clock values, ignored by the comparison) leaves
exactly one fresh set of entries for that profile name: the second sync
yields the same entry count, the same entry-id count and the same list of
categories for that profile as the first, because all prior entries of the
profile are purged before the new ones are added; the (text, metadata)
rows of every other profile are unaffected by either call. -/
theorem C5_sync_idempotent (st : DBState) (p : ProfileData) (name ts1 ts2 : String)
    (h : st.dataEntries.length = st.metadata.length) :
    (entriesFor (addProfileToVectordb
        (addProfileToVectordb st p name ts1).2 p name ts2).2 name).map Meta.category
      = (entriesFor (addProfileToVectordb st p name ts1).2 name).map Meta.category ∧
    (entriesFor (addProfileToVectordb
        (addProfileToVectordb st p name ts1).2 p name ts2).2 name).length
      = (entriesFor (addProfileToVectordb st p name ts1).2 name).length ∧
    (addProfileToVectordb (addProfileToVectordb st p name ts1).2 p name ts2).1.length
      = (addProfileToVectordb st p name ts1).1.length ∧
    otherRows (addProfileToVectordb
        (addProfileToVectordb st p name ts1).2 p name ts2).2 name
      = otherRows (addProfileToVectordb st p name ts1).2 name ∧
    otherRows (addProfileToVectordb st p name ts1).2 name = otherRows st name := by
  have h1 := entriesFor_sync st p name ts1
  have h2 := entriesFor_sync (addProfileToVectordb st p name ts1).2 p name ts2
  have ho1 := sync_otherRows st p name ts1 h
  have ho2 := sync_otherRows (addProfileToVectordb st p name ts1).2 p name ts2 ho1.2
  have ids : ∀ (st2 : DBState) (ts : String),
      (addProfileToVectordb st2 p name ts).1.length = (derivedEntries p).length := by
    intro st2 ts
    unfold addProfileToVectordb
    rw [addDerived_ids_length]
    simp
  refine ⟨?cat, ?len, ?ids, ho2.1, ho1.1⟩
  · rw [h1, h2, List.map_map, List.map_map]
    rfl
  · rw [h1, h2, List.length_map, List.length_map]
  · rw [ids, ids]

/-- Closed witness for C5 on a concrete two-profile state. -/
theorem C5_sync_idempotent_witness :
    (entriesFor (addProfileToVectordb
        (addProfileToVectordb stAlphaBravo profAlpha "a" "T3").2 profAlpha "a" "T4").2
        "a").map Meta.category
      = (entriesFor (addProfileToVectordb stAlphaBravo profAlpha "a" "T3").2
          "a").map Meta.category ∧
    otherRows (addProfileToVectordb stAlphaBravo profAlpha "a" "T3").2 "a"
      = otherRows stAlphaBravo "a" :=
  have h := C5_sync_idempotent stAlphaBravo profAlpha "a" "T3" "T4" (by decide)
  ⟨h.1, h.2.2.2.2⟩

/-! ## Hybrid merge lemmas -/

theorem mergeSemantic_fold_inv (rs : List (SearchResult K)) :
    ∀ acc : List (String × SearchResult K),
      (∀ q ∈ acc, q.2.combinedScore = q.2.semanticScore * 0.7 + q.2.keywordScore * 0.3 ∧
         resultKey q.2 = q.1) →
      ∀ q ∈ rs.foldl mergeSemantic acc,
        q.2.combinedScore = q.2.semanticScore * 0.7 + q.2.keywordScore * 0.3 ∧
        resultKey q.2 = q.1 := by
  induction rs with
  | nil => intro acc h; exact h
  | cons r rest ih =>
    intro acc h
    rw [List.foldl_cons]
    apply ih
    intro q hq
    rcases mem_assocSet _ _ _ _ hq with hq | hq
    · exact h q hq
    · subst hq
      refine ⟨?c, rfl⟩
      show r.score * 0.7 = r.score * 0.7 + 0 * 0.3
      ring

theorem mergeKeyword_fold_inv (rs : List (SearchResult K)) :
    ∀ acc : List (String × SearchResult K),
      (∀ q ∈ acc, q.2.combinedScore = q.2.semanticScore * 0.7 + q.2.keywordScore * 0.3 ∧
         resultKey q.2 = q.1) →
      ∀ q ∈ rs.foldl mergeKeyword acc,
        q.2.combinedScore = q.2.semanticScore * 0.7 + q.2.keywordScore * 0.3 ∧
        resultKey q.2 = q.1 := by
  induction rs with
  | nil => intro acc h; exact h
  | cons r rest ih =>
    intro acc h
    rw [List.foldl_cons]
    apply ih
    intro q hq
    unfold mergeKeyword at hq
    rcases hl : alookup acc (resultKey r) with _ | old
    · rw [hl] at hq
      rcases List.mem_append.mp hq with hq | hq
      · exact h q hq
      · rcases List.mem_singleton.mp hq with rfl
        refine ⟨?c, rfl⟩
        show r.score * 0.3 = 0 * 0.7 + r.score * 0.3
        ring
    · rw [hl] at hq
      rcases mem_assocSet _ _ _ _ hq with hq | hq
      · exact h q hq
      · rcases hq with rfl
        have hold := h (resultKey r, old) (alookup_mem hl)
        refine ⟨rfl, hold.2⟩

theorem mergeSemantic_fold_keys (rs : List (SearchResult K)) :
    ∀ acc : List (String × SearchResult K),
      ((acc.map Prod.fst).Nodup) →
      (((rs.foldl mergeSemantic acc).map Prod.fst).Nodup) := by
  induction rs with
  | nil => intro acc h; exact h
  | cons r rest ih =>
    intro acc h
    rw [List.foldl_cons]
    apply ih
    unfold mergeSemantic
    by_cases hk : resultKey r ∈ acc.map Prod.fst
    · rw [assocSet_keys_of_mem _ _ _ hk]
      exact h
    · rw [assocSet_keys_of_not_mem _ _ _ hk]
      simp [List.nodup_append, h, hk]

theorem mergeKeyword_fold_keys (rs : List (SearchResult K)) :
    ∀ acc : List (String × SearchResult K),
      ((acc.map Prod.fst).Nodup) →
      (((rs.foldl mergeKeyword acc).map Prod.fst).Nodup) := by
  induction rs with
  | nil => intro acc h; exact h
  | cons r rest ih =>
    intro acc h
    rw [List.foldl_cons]
    apply ih
    unfold mergeKeyword
    rcases hl : alookup acc (resultKey r) with _ | old
    · have hk : resultKey r ∉ acc.map Prod.fst := (alookup_eq_none _ _).mp hl
      rw [List.map_append]
      simp [List.nodup_append, h, hk]
    · rw [assocSet_keys_of_mem _ _ _ (alookup_isSome_mem_keys hl)]
      exact h

theorem hybridSearch_results_inv (lnq : ℚ → K) (st : DBState) (hits : List (K × Int))
    (query : String) (pf : Option String) (dt : Option (List String)) (k : Nat) (ms : K) :
    (∀ r ∈ (hybridSearch lnq st hits query pf dt k ms).1,
       r.score = r.combinedScore ∧
       r.combinedScore = r.semanticScore * 0.7 + r.keywordScore * 0.3) ∧
    (hybridSearch lnq st hits query pf dt k ms).1.Pairwise
      (fun r1 r2 => resultKey r1 ≠ resultKey r2) := by
  have hinv := mergeKeyword_fold_inv (keywordSearch lnq st query pf dt (k * 2) (ms * 0.5)).1
    ((semanticSearch st hits pf dt (k * 2) (ms * 0.7)).foldl mergeSemantic [])
    (mergeSemantic_fold_inv (semanticSearch st hits pf dt (k * 2) (ms * 0.7)) []
      (by intro q hq; cases hq))
  unfold hybridSearch
  dsimp only
  constructor
  · intro r hr
    have hr2 := List.mem_of_mem_take hr
    obtain ⟨r0, hr0, hfix⟩ := List.mem_map.mp hr2
    have hr3 := mem_sortDesc.mp hr0
    obtain ⟨q, hq, hq2⟩ := List.mem_map.mp hr3
    have hprop := (hinv q hq).1
    rw [hq2] at hprop
    rw [← hfix]
    exact ⟨rfl, hprop⟩
  · have hkeys := mergeKeyword_fold_keys (keywordSearch lnq st query pf dt (k * 2)
        (ms * 0.5)).1
      ((semanticSearch st hits pf dt (k * 2) (ms * 0.7)).foldl mergeSemantic [])
      (mergeSemantic_fold_keys (semanticSearch st hits pf dt (k * 2) (ms * 0.7)) [] (by simp))
    have hpw1 : ((keywordSearch lnq st query pf dt (k * 2) (ms * 0.5)).1.foldl mergeKeyword
        ((semanticSearch st hits pf dt (k * 2) (ms * 0.7)).foldl mergeSemantic [])).Pairwise
        (fun q1 q2 => q1.1 ≠ q2.1) := (List.pairwise_map).mp hkeys
    have hpw : ((keywordSearch lnq st query pf dt (k * 2) (ms * 0.5)).1.foldl mergeKeyword
        ((semanticSearch st hits pf dt (k * 2) (ms * 0.7)).foldl mergeSemantic [])).Pairwise
        (fun q1 q2 => resultKey q1.2 ≠ resultKey q2.2) := by
      refine hpw1.imp_of_mem ?i
      intro q1 q2 h1m h2m hne
      rw [(hinv q1 h1m).2, (hinv q2 h2m).2]
      exact hne
    have hpw2 : (((keywordSearch lnq st query pf dt (k * 2) (ms * 0.5)).1.foldl mergeKeyword
        ((semanticSearch st hits pf dt (k * 2) (ms * 0.7)).foldl mergeSemantic [])).map
        Prod.snd).Pairwise (fun r1 r2 => resultKey r1 ≠ resultKey r2) :=
      (List.pairwise_map).mpr hpw
    have hpw3 := ((sortDesc_perm (fun r : SearchResult K => r.combinedScore) _).pairwise_iff
      (fun {r1 r2} (h : resultKey r1 ≠ resultKey r2) => h.symm)).mpr hpw2
    have hpw4 : ((sortDesc (fun r : SearchResult K => r.combinedScore)
        (((keywordSearch lnq st query pf dt (k * 2) (ms * 0.5)).1.foldl mergeKeyword
          ((semanticSearch st hits pf dt (k * 2) (ms * 0.7)).foldl mergeSemantic [])).map
          Prod.snd)).map (fun r =>
            { r with score := r.combinedScore,
                     searchMethod := "hybrid_semantic_keyword" })).Pairwise
        (fun r1 r2 => resultKey r1 ≠ resultKey r2) :=
      (List.pairwise_map).mpr (hpw3.imp (fun h => h))
    exact hpw4.sublist (List.take_sublist _ _)

/-! ## Claim C2 -/

/-- C2: every result returned by a hybrid-mode search carries a final score
equal to its combined score, which equals 0.7 times its semantic-path
component plus 0.3 times its keyword-path component (a candidate found by
only one path holds 0 for the missing component), and the results are
deduplicated by the merge key `profile_name + "_" + type + "_" + timestamp`:
distinct returned results always have distinct keys. -/
theorem C2_hybrid_linearity (lnq : ℚ → ℝ) (st : DBState) (hits : List (ℝ × Int))
    (query : String) (pf : Option String) (dt : Option (List String)) (k : Nat) (ms : ℝ) :
    (∀ r ∈ (hybridSearch lnq st hits query pf dt k ms).1,
       r.score = r.combinedScore ∧
       r.combinedScore = r.semanticScore * 0.7 + r.keywordScore * 0.3) ∧
    (hybridSearch lnq st hits query pf dt k ms).1.Pairwise
      (fun r1 r2 => resultKey r1 ≠ resultKey r2) :=
  hybridSearch_results_inv lnq st hits query pf dt k ms

/-! ## Fixture evaluation -/

theorem bm25_all_miss (lnq : ℚ → K) (st : DBState) (qts : List String)
    (h : ∀ t ∈ qts, alookup st.keywordIndex t = none) :
    calculateBm25Scores lnq st qts = List.replicate st.dataEntries.length 0 := by
  unfold calculateBm25Scores
  suffices hgen : ∀ init : List K, qts.foldl (bm25Step lnq st) init = init by
    exact hgen _
  induction qts with
  | nil => intro init; rfl
  | cons t rest ih =>
    intro init
    rw [List.foldl_cons]
    have hstep : bm25Step lnq st init t = init := by
      unfold bm25Step
      rw [h t (List.mem_cons_self _ _)]
    rw [hstep]
    exact ih (fun u hu => h u (List.mem_cons_of_mem _ hu)) init

theorem semanticCareer_eval :
    semanticSearch stCareer [((2/25 : ℝ), (0 : Int))] none none (5 * 2) ((1/10) * 0.7)
      = [rCareerSem] := by
  have hmd : stCareer.metadata = [metaCareer] := by decide
  have hde : stCareer.dataEntries = [textCareer] := by decide
  have hbonus : dataAiKeywords.foldl
      (fun (b : ℚ) kw => if strContains (strLower textCareer) kw then b + 0.05 else b) 0
      = 0 := by decide
  have hw : alookup typeWeights "career_goals" = some 1.0 := by
    simp [alookup, typeWeights]
  unfold semanticSearch
  rw [List.foldl_cons, List.foldl_nil]
  rw [if_pos (⟨by norm_num, by norm_num⟩ :
    (0 : Int) ≤ (0 : Int) ∧ (1/10 : ℝ) * 0.7 ≤ 2/25)]
  simp only [hmd, hde, Int.toNat_zero, List.getD_cons_zero, skipByProfile, skipByTypes,
    metaCareer, hbonus, hw, Option.getD_some]
  norm_num
  unfold rCareerSem metaCareer
  simp [sortDesc, insertDesc]

theorem keywordCareer_eval :
    keywordSearch (fun q => Real.log (q : ℝ)) stCareer "qqzz qqzz qqzz qqzz qqzz "
      none none (5 * 2) ((1/10) * 0.5) = ([], stCareer) := by
  unfold keywordSearch
  rw [if_neg (by decide : ¬stCareer.keywordIndex = [])]
  have hms : calculateBm25Scores (fun q => Real.log (q : ℝ)) stCareer
      (tokenize "qqzz qqzz qqzz qqzz qqzz ")
      = List.replicate stCareer.dataEntries.length 0 := by
    apply bm25_all_miss
    intro t ht
    have htok : tokenize "qqzz qqzz qqzz qqzz qqzz "
        = ["qqzz", "qqzz", "qqzz", "qqzz", "qqzz"] := by decide
    rw [htok] at ht
    have : t = "qqzz" := by
      simpa using ht
    rw [this]
    decide
  unfold keywordCandidates
  dsimp only
  rw [hms]
  have hlen : stCareer.dataEntries.length = 1 := by decide
  rw [hlen]
  simp only [List.replicate, enumFrom]
  have hnot : ¬((1/10 : ℝ) * 0.5 < 0) := by norm_num
  simp [List.filter_cons, hnot, sortDesc]
  norm_num

theorem hybridCareer_eval :
    (hybridSearch (fun q => Real.log (q : ℝ)) stCareer [((2/25 : ℝ), (0 : Int))]
        "qqzz qqzz qqzz qqzz qqzz " none none 5 (1/10)).1 = [rCareerHybrid] := by
  unfold hybridSearch
  dsimp only
  rw [semanticCareer_eval, keywordCareer_eval]
  simp only [List.foldl_cons, List.foldl_nil, mergeSemantic, assocSet, List.map_cons,
    List.map_nil]
  simp only [sortDesc, List.foldl_cons, List.foldl_nil, insertDesc, List.map_cons,
    List.map_nil, List.take]
  unfold rCareerSem rCareerHybrid
  norm_num

set_option maxRecDepth 100000 in
theorem searchCareer_eval :
    (searchUnifiedProfile (fun q => Real.log (q : ℝ)) stCareer [((2/25 : ℝ), (0 : Int))]
        "qqzz" none none 5 (1/10) "hybrid").1 = [rCareerHybrid] := by
  unfold searchUnifiedProfile
  rw [if_neg (by decide : ¬stCareer.indexTexts.length = 0)]
  dsimp only
  rw [if_pos rfl]
  have he : expandQuery "qqzz" = "qqzz qqzz qqzz qqzz qqzz " := by
    decide
  rw [he]
  exact hybridCareer_eval

/-- Closed witness for C2: the fixture hybrid search returns `rCareerHybrid`
and its scores satisfy the linear combination. -/
theorem C2_hybrid_linearity_witness :
    rCareerHybrid ∈ (hybridSearch (fun q => Real.log (q : ℝ)) stCareer
        [((2/25 : ℝ), (0 : Int))] "qqzz qqzz qqzz qqzz qqzz " none none 5 (1/10)).1 ∧
    (rCareerHybrid : SearchResult ℝ).score = rCareerHybrid.combinedScore ∧
    (rCareerHybrid : SearchResult ℝ).combinedScore
      = rCareerHybrid.semanticScore * 0.7 + rCareerHybrid.keywordScore * 0.3 := by
  have hm : rCareerHybrid ∈ (hybridSearch (fun q => Real.log (q : ℝ)) stCareer
      [((2/25 : ℝ), (0 : Int))] "qqzz qqzz qqzz qqzz qqzz " none none 5 (1/10)).1 := by
    rw [hybridCareer_eval]
    exact List.mem_singleton.mpr rfl
  exact ⟨hm, (C2_hybrid_linearity (fun q => Real.log (q : ℝ)) stCareer
    [((2/25 : ℝ), (0 : Int))] "qqzz qqzz qqzz qqzz qqzz " none none 5 (1/10)).1
    rCareerHybrid hm⟩

/-! ## Claim C3 -/

/-- C3: counterexample to the claim that every result returned by
`search_unified_profile(query, profile_name, data_types, top_k, min_score,
"hybrid")` has final score at least `min_score`.  On the concrete state
`stCareer`, with the FAISS index reporting inner-product score 2/25 for the
single entry, a hybrid search with `min_score = 1/10` returns exactly one
result whose final score is 7/125 < 1/10: the semantic path admits it at
the relaxed threshold `0.7 * min_score` and no filter on the combined
score is ever applied. -/
theorem C3_counterexample_score_below_min :
    ((searchUnifiedProfile (fun q => Real.log (q : ℝ)) stCareer [((2/25 : ℝ), (0 : Int))]
        "qqzz" none none 5 (1/10) "hybrid").1.map (fun r => r.score)) = [7/125] ∧
    (7/125 : ℝ) < 1/10 := by
  constructor
  · rw [searchCareer_eval]
    rfl
  · norm_num

/-! ## Score lower bounds for the amended hybrid min-score property -/

theorem typeWeights_ge (c : String) : (4/5 : ℚ) ≤ (alookup typeWeights c).getD 1 := by
  rcases hl : alookup typeWeights c with _ | w
  · norm_num
  · simp only [Option.getD_some]
    have hmem := alookup_mem hl
    simp only [typeWeights] at hmem
    fin_cases hmem <;> norm_num

theorem bonusFold_nonneg (text : String) :
    (0 : ℚ) ≤ dataAiKeywords.foldl
      (fun b kw => if strContains text kw then b + 0.05 else b) 0 := by
  suffices hgen : ∀ (l : List String) (acc : ℚ), 0 ≤ acc →
      0 ≤ l.foldl (fun b kw => if strContains text kw then b + 0.05 else b) acc from
    hgen _ 0 le_rfl
  intro l
  induction l with
  | nil => intro acc h; exact h
  | cons kw rest ih =>
    intro acc h
    rw [List.foldl_cons]
    by_cases hc : strContains text kw = true
    · rw [if_pos hc]
      exact ih _ (by linarith)
    · rw [if_neg hc]
      exact ih _ h

theorem semantic_term_lb (raw : K) (w bonus : ℚ) (ms : K) (hms : 0 ≤ ms) (hraw : ms ≤ raw)
    (hw : (4/5 : ℚ) ≤ w) (hb : 0 ≤ bonus) :
    ms * (4/5) ≤ raw * (w : K) * (((1 + min bonus 0.3 : ℚ) : K)) := by
  have h45 : ((4/5 : ℚ) : K) = (4/5 : K) := by push_cast; ring
  have h1 : (4/5 : K) ≤ (w : K) := by
    rw [← h45]
    exact Rat.cast_le.mpr hw
  have h2 : (1 : K) ≤ (((1 + min bonus 0.3 : ℚ) : K)) := by
    have : (1 : ℚ) ≤ 1 + min bonus 0.3 := by
      have hmin : (0 : ℚ) ≤ min bonus 0.3 := le_min hb (by norm_num)
      linarith
    calc (1 : K) = ((1 : ℚ) : K) := by push_cast; ring
    _ ≤ _ := Rat.cast_le.mpr this
  have hrawnn : 0 ≤ raw := le_trans hms hraw
  have hwnn : (0 : K) ≤ (w : K) := le_trans (by norm_num) h1
  have hstep1 : ms * (4/5) ≤ raw * (w : K) :=
    mul_le_mul hraw h1 (by norm_num) hrawnn
  have hstep2 : raw * (w : K) ≤ raw * (w : K) * (((1 + min bonus 0.3 : ℚ) : K)) :=
    le_mul_of_one_le_right (mul_nonneg hrawnn hwnn) h2
  exact le_trans hstep1 hstep2

theorem semanticSearch_score_lb (st : DBState) (hits : List (K × Int))
    (pf : Option String) (dt : Option (List String)) (k : Nat) (ms : K) (hms : 0 ≤ ms) :
    ∀ r ∈ semanticSearch st hits pf dt k ms, ms * (4/5) ≤ r.score := by
  unfold semanticSearch
  suffices hgen : ∀ (hl : List (K × Int)) (acc : List (SearchResult K)),
      (∀ r ∈ acc, ms * (4/5) ≤ r.score) →
      ∀ r ∈ hl.foldl (fun acc h =>
        if 0 ≤ h.2 ∧ ms ≤ h.1 then
          let i := h.2.toNat
          let md := st.metadata.getD i defaultMeta
          if skipByProfile pf md then acc
          else if skipByTypes dt md then acc
          else
            let w : ℚ := ((alookup typeWeights md.category).getD 1)
            let textLower := strLower (st.dataEntries.getD i "")
            let bonus : ℚ := dataAiKeywords.foldl
              (fun b kw => if strContains textLower kw then b + 0.05 else b) 0
            let finalScore : K := h.1 * (w : K) * (((1 + min bonus 0.3 : ℚ) : K))
            acc ++ [{ meta := md, score := finalScore, originalScore := h.1,
                      typeWeight := (w : K), keywordBonus := (bonus : K),
                      text := st.dataEntries.getD i "",
                      searchMethod := "semantic_similarity_data_ai",
                      semanticScore := 0, keywordScore := 0, combinedScore := 0 }]
        else acc) acc, ms * (4/5) ≤ r.score by
    intro r hr
    have hr2 := List.mem_of_mem_take hr
    have hr3 := mem_sortDesc.mp hr2
    exact hgen hits [] (by intro r2 hr2b; cases hr2b) r hr3
  intro hl
  induction hl with
  | nil => intro acc h; exact h
  | cons hd rest ih =>
    intro acc h
    rw [List.foldl_cons]
    apply ih
    by_cases hc : 0 ≤ hd.2 ∧ ms ≤ hd.1
    · rw [if_pos hc]
      dsimp only
      by_cases hs1 : skipByProfile pf (st.metadata.getD hd.2.toNat defaultMeta) = true
      · rw [if_pos hs1]; exact h
      · rw [if_neg hs1]
        by_cases hs2 : skipByTypes dt (st.metadata.getD hd.2.toNat defaultMeta) = true
        · rw [if_pos hs2]; exact h
        · rw [if_neg hs2]
          intro r hr
          rcases List.mem_append.mp hr with hr | hr
          · exact h r hr
          · rcases List.mem_singleton.mp hr with rfl
            exact semantic_term_lb hd.1 _ _ ms hms hc.2
              (typeWeights_ge _) (bonusFold_nonneg _)
    · rw [if_neg hc]
      exact h

theorem keywordSearch_score_lb (lnq : ℚ → K) (st : DBState) (q : String)
    (pf : Option String) (dt : Option (List String)) (k : Nat) (ms : K) :
    ∀ r ∈ (keywordSearch lnq st q pf dt k ms).1, ms < r.score := by
  unfold keywordSearch
  dsimp only
  intro r hr
  have hr2 := List.mem_of_mem_take hr
  suffices hgen : ∀ (cands : List (Nat × K)) (acc : List (SearchResult K)),
      (∀ r2 ∈ acc, ms < r2.score) → (∀ p ∈ cands, ms < p.2) →
      ∀ r2 ∈ cands.foldl (fun acc p =>
        if (if st.keywordIndex = [] then buildKeywordIndex st else st).metadata.length ≤ p.1
        then acc
        else
          let md := (if st.keywordIndex = [] then buildKeywordIndex st
            else st).metadata.getD p.1 defaultMeta
          if skipByProfile pf md then acc
          else if skipByTypes dt md then acc
          else acc ++ [{ meta := md, score := p.2, originalScore := 0, typeWeight := 0,
                         keywordBonus := 0,
                         text := (if st.keywordIndex = [] then buildKeywordIndex st
                           else st).dataEntries.getD p.1 "",
                         searchMethod := "keyword_bm25",
                         semanticScore := 0, keywordScore := 0, combinedScore := 0 }]) acc,
        ms < r2.score by
    refine hgen _ [] (by intro r2 h2; cases h2) ?cands r hr2
    intro p hp
    have hp2 := List.mem_of_mem_take hp
    have hp3 := mem_sortDesc.mp hp2
    have hp4 := List.mem_filter.mp hp3
    exact of_decide_eq_true hp4.2
  intro cands
  induction cands with
  | nil => intro acc h hc r2 h2; exact h r2 h2
  | cons p rest ih =>
    intro acc h hc
    rw [List.foldl_cons]
    apply ih
    · by_cases h1 : (if st.keywordIndex = [] then buildKeywordIndex st
          else st).metadata.length ≤ p.1
      · rw [if_pos h1]; exact h
      · rw [if_neg h1]
        dsimp only
        by_cases hs1 : skipByProfile pf ((if st.keywordIndex = [] then buildKeywordIndex st
            else st).metadata.getD p.1 defaultMeta) = true
        · rw [if_pos hs1]; exact h
        · rw [if_neg hs1]
          by_cases hs2 : skipByTypes dt ((if st.keywordIndex = [] then buildKeywordIndex st
              else st).metadata.getD p.1 defaultMeta) = true
          · rw [if_pos hs2]; exact h
          · rw [if_neg hs2]
            intro r2 h2
            rcases List.mem_append.mp h2 with h2 | h2
            · exact h r2 h2
            · rcases List.mem_singleton.mp h2 with rfl
              exact hc p (List.mem_cons_self _ _)
    · exact fun p2 hp2 => hc p2 (List.mem_cons_of_mem _ hp2)

theorem mergeSemantic_fold_lb (ms : K) (hms : 0 ≤ ms) (rs : List (SearchResult K))
    (hrs : ∀ r ∈ rs, (ms * 0.7) * (4/5) ≤ r.score) :
    ∀ acc : List (String × SearchResult K),
      (∀ q ∈ acc, 0 ≤ q.2.semanticScore ∧ (3/20) * ms ≤ q.2.combinedScore) →
      ∀ q ∈ rs.foldl mergeSemantic acc,
        0 ≤ q.2.semanticScore ∧ (3/20) * ms ≤ q.2.combinedScore := by
  induction rs with
  | nil => intro acc h; exact h
  | cons r rest ih =>
    intro acc h
    rw [List.foldl_cons]
    apply ih
    · exact fun r2 h2 => hrs r2 (List.mem_cons_of_mem _ h2)
    · intro q hq
      rcases mem_assocSet _ _ _ _ hq with hq | hq
      · exact h q hq
      · rcases hq with rfl
        have hr := hrs r (List.mem_cons_self _ _)
        constructor
        · show (0 : K) ≤ r.score
          nlinarith
        · show (3/20) * ms ≤ r.score * 0.7
          nlinarith

theorem mergeKeyword_fold_lb (ms : K) (hms : 0 ≤ ms) (rs : List (SearchResult K))
    (hrs : ∀ r ∈ rs, ms * 0.5 < r.score) :
    ∀ acc : List (String × SearchResult K),
      (∀ q ∈ acc, 0 ≤ q.2.semanticScore ∧ (3/20) * ms ≤ q.2.combinedScore) →
      ∀ q ∈ rs.foldl mergeKeyword acc,
        0 ≤ q.2.semanticScore ∧ (3/20) * ms ≤ q.2.combinedScore := by
  induction rs with
  | nil => intro acc h; exact h
  | cons r rest ih =>
    intro acc h
    rw [List.foldl_cons]
    apply ih
    · exact fun r2 h2 => hrs r2 (List.mem_cons_of_mem _ h2)
    · intro q hq
      have hr := hrs r (List.mem_cons_self _ _)
      unfold mergeKeyword at hq
      rcases hl : alookup acc (resultKey r) with _ | old
      · rw [hl] at hq
        rcases List.mem_append.mp hq with hq | hq
        · exact h q hq
        · rcases List.mem_singleton.mp hq with rfl
          constructor
          · show (0 : K) ≤ 0
            exact le_rfl
          · show (3/20) * ms ≤ r.score * 0.3
            nlinarith
      · rw [hl] at hq
        rcases mem_assocSet _ _ _ _ hq with hq | hq
        · exact h q hq
        · rcases hq with rfl
          have hold := h (resultKey r, old) (alookup_mem hl)
          constructor
          · exact hold.1
          · show (3/20) * ms ≤ old.semanticScore * 0.7 + r.score * 0.3
            have h1 := hold.1
            nlinarith

/-- C3 amended: hybrid mode never filters by the combined score; the
`min_score` threshold is applied inside the two sub-searches (at
`0.7 * min_score` on raw semantic scores before weighting, and strictly at
`0.5 * min_score` on BM25 scores), so a returned result's final score may
fall below `min_score`, but — for a nonnegative `min_score` — it is always
at least `0.15 * min_score`. -/
theorem C3_amended_hybrid_score_lower_bound (lnq : ℚ → ℝ) (st : DBState)
    (hits : List (ℝ × Int)) (query : String) (pf : Option String)
    (dt : Option (List String)) (k : Nat) (ms : ℝ) (hms : 0 ≤ ms) :
    ∀ r ∈ (hybridSearch lnq st hits query pf dt k ms).1, (3/20) * ms ≤ r.score := by
  have hsem := semanticSearch_score_lb st hits pf dt (k * 2) (ms * 0.7)
    (by nlinarith)
  have hkw := keywordSearch_score_lb lnq st query pf dt (k * 2) (ms * 0.5)
  have hmerge := mergeKeyword_fold_lb ms hms
    (keywordSearch lnq st query pf dt (k * 2) (ms * 0.5)).1 hkw
    ((semanticSearch st hits pf dt (k * 2) (ms * 0.7)).foldl mergeSemantic [])
    (mergeSemantic_fold_lb ms hms (semanticSearch st hits pf dt (k * 2) (ms * 0.7))
      (by
        intro r hr
        exact hsem r hr)
      [] (by intro q hq; cases hq))
  unfold hybridSearch
  dsimp only
  intro r hr
  have hr2 := List.mem_of_mem_take hr
  obtain ⟨r0, hr0, hfix⟩ := List.mem_map.mp hr2
  have hr3 := mem_sortDesc.mp hr0
  obtain ⟨q, hq, hq2⟩ := List.mem_map.mp hr3
  have hprop := (hmerge q hq).2
  rw [hq2] at hprop
  rw [← hfix]
  exact hprop

/-- Closed witness for the amended C3 bound at the fixture search. -/
theorem C3_amended_hybrid_score_lower_bound_witness :
    (0 : ℝ) ≤ 1/10 ∧ (3/20 : ℝ) * (1/10) ≤ (rCareerHybrid : SearchResult ℝ).score := by
  have hm : rCareerHybrid ∈ (hybridSearch (fun q => Real.log (q : ℝ)) stCareer
      [((2/25 : ℝ), (0 : Int))] "qqzz qqzz qqzz qqzz qqzz " none none 5 (1/10)).1 := by
    rw [hybridCareer_eval]
    exact List.mem_singleton.mpr rfl
  exact ⟨by norm_num, C3_amended_hybrid_score_lower_bound (fun q => Real.log (q : ℝ))
    stCareer [((2/25 : ℝ), (0 : Int))] "qqzz qqzz qqzz qqzz qqzz " none none 5 (1/10)
    (by norm_num) rCareerHybrid hm⟩

/-! ## List indexing lemmas for the BM25 score array -/

theorem getD_ge_length {α : Type} (l : List α) (d : Nat) (d0 : α) (h : l.length ≤ d) :
    l.getD d d0 = d0 := by
  induction l generalizing d with
  | nil => cases d <;> rfl
  | cons a rest ih =>
    cases d with
    | zero => simp at h
    | succ d2 =>
      simp only [List.length_cons] at h
      exact ih d2 (by omega)

theorem getD_set_eq {α : Type} (l : List α) (i : Nat) (v : α) (d0 : α) (h : i < l.length) :
    (l.set i v).getD i d0 = v := by
  induction l generalizing i with
  | nil => simp at h
  | cons a rest ih =>
    cases i with
    | zero => rfl
    | succ i2 =>
      simp only [List.length_cons] at h
      exact ih i2 (by omega)

theorem getD_set_ne {α : Type} (l : List α) (i j : Nat) (v : α) (d0 : α) (h : i ≠ j) :
    (l.set i v).getD j d0 = l.getD j d0 := by
  induction l generalizing i j with
  | nil => rfl
  | cons a rest ih =>
    cases i with
    | zero =>
      cases j with
      | zero => exact absurd rfl h
      | succ j2 => rfl
    | succ i2 =>
      cases j with
      | zero => rfl
      | succ j2 => exact ih i2 j2 (by omega)

theorem foldl_set_add_getD (f : Nat → K) :
    ∀ (docs : List Nat), docs.Nodup →
    ∀ (sc : List K) (d : Nat),
      ((docs.foldl (fun sc2 i => sc2.set i (sc2.getD i 0 + f i)) sc).getD d 0
        = sc.getD d 0 + if d ∈ docs ∧ d < sc.length then f d else 0) ∧
      (docs.foldl (fun sc2 i => sc2.set i (sc2.getD i 0 + f i)) sc).length = sc.length := by
  intro docs
  induction docs with
  | nil =>
    intro hnd sc d
    simp
  | cons i rest ih =>
    intro hnd sc d
    rw [List.foldl_cons]
    have hndr : rest.Nodup := hnd.of_cons
    have hi : i ∉ rest := (List.nodup_cons.mp hnd).1
    have ihh := ih hndr (sc.set i (sc.getD i 0 + f i)) d
    have hlen : (sc.set i (sc.getD i 0 + f i)).length = sc.length := List.length_set _ _ _
    refine ⟨?g, ihh.2.trans hlen⟩
    rw [ihh.1, hlen]
    by_cases hd : d = i
    · subst hd
      have hdnr : d ∉ rest := hi
      by_cases hlt : d < sc.length
      · rw [getD_set_eq _ _ _ _ hlt]
        simp [hdnr, hlt]
      · rw [getD_ge_length (sc.set d (sc.getD d 0 + f d)) d 0 (by rw [hlen]; omega)]
        rw [getD_ge_length sc d 0 (by omega)]
        simp [hdnr, hlt]
    · rw [getD_set_ne _ _ _ _ _ (fun e => hd e.symm)]
      by_cases hdr : d ∈ rest
      · simp [hdr, hd]
      · simp [hdr, hd]

/-! ## Posting-list characterisation of the built keyword index -/

theorem mem_dedupKeepFirst {α : Type} [DecidableEq α] (a : α) :
    ∀ (l seen : List α), a ∈ dedupKeepFirst seen l ↔ a ∈ l ∧ a ∉ seen := by
  intro l
  induction l with
  | nil => intro seen; simp [dedupKeepFirst]
  | cons b rest ih =>
    intro seen
    unfold dedupKeepFirst
    by_cases hb : b ∈ seen
    · rw [if_pos hb]
      rw [ih]
      constructor
      · rintro ⟨h1, h2⟩
        exact ⟨List.mem_cons_of_mem _ h1, h2⟩
      · rintro ⟨h1, h2⟩
        rcases List.mem_cons.mp h1 with h1 | h1
        · subst h1; exact absurd hb h2
        · exact ⟨h1, h2⟩
    · rw [if_neg hb]
      constructor
      · intro h
        rcases List.mem_cons.mp h with h | h
        · subst h; exact ⟨List.mem_cons_self _ _, hb⟩
        · have h3 := (ih (seen ++ [b])).mp h
          exact ⟨List.mem_cons_of_mem _ h3.1,
            fun hs => h3.2 (List.mem_append_left _ hs)⟩
      · rintro ⟨h1, h2⟩
        rcases List.mem_cons.mp h1 with h1 | h1
        · subst h1; exact List.mem_cons_self _ _
        · by_cases hab : a = b
          · subst hab; exact List.mem_cons_self _ _
          · refine List.mem_cons_of_mem _ ((ih (seen ++ [b])).mpr ⟨h1, fun hs => ?n⟩)
            rcases List.mem_append.mp hs with hs | hs
            · exact h2 hs
            · exact hab (List.mem_singleton.mp hs)

theorem nodup_dedupKeepFirst {α : Type} [DecidableEq α] :
    ∀ (l seen : List α), (dedupKeepFirst seen l).Nodup := by
  intro l
  induction l with
  | nil => intro seen; simp [dedupKeepFirst]
  | cons b rest ih =>
    intro seen
    unfold dedupKeepFirst
    by_cases hb : b ∈ seen
    · rw [if_pos hb]
      exact ih seen
    · rw [if_neg hb]
      refine List.nodup_cons.mpr ⟨?nm, ih (seen ++ [b])⟩
      intro hmem
      exact ((mem_dedupKeepFirst b rest (seen ++ [b])).mp hmem).2
        (List.mem_append_right _ (List.mem_singleton.mpr rfl))

theorem alookup_append_single {α β : Type} [DecidableEq α] (l : List (α × β)) (k : α)
    (v : β) (u : α) :
    alookup (l ++ [(k, v)]) u
      = match alookup l u with
        | some w => some w
        | none => if k = u then some v else none := by
  induction l with
  | nil => rfl
  | cons p rest ih =>
    obtain ⟨a, b⟩ := p
    by_cases ha : a = u
    · simp [alookup, ha]
    · simp only [List.cons_append, alookup, if_neg ha]
      exact ih

theorem alookup_assocSet {α β : Type} [DecidableEq α] (l : List (α × β)) (k : α) (v : β)
    (u : α) :
    alookup (assocSet l k v) u = if k = u then some v else alookup l u := by
  induction l with
  | nil =>
    by_cases hk : k = u <;> simp [assocSet, alookup, hk]
  | cons p rest ih =>
    obtain ⟨a, b⟩ := p
    by_cases hak : a = k
    · subst hak
      by_cases hau : a = u
      · simp [assocSet, alookup, hau]
      · simp [assocSet, alookup, hau, if_neg hau]
    · by_cases hau : a = u
      · subst hau
        have hk : ¬k = a := fun e => hak e.symm
        simp [assocSet, if_neg hak, alookup, hk]
      · simp [assocSet, if_neg hak, alookup, if_neg hau, ih]

theorem appendPosting_alookup (ki : List (String × List Nat)) (token : String)
    (docId : Nat) (u : String) :
    alookup (appendPosting ki token docId) u
      = if u = token then some ((alookup ki u).getD [] ++ [docId]) else alookup ki u := by
  unfold appendPosting
  rcases hl : alookup ki token with _ | l
  · simp only [hl]
    rw [alookup_append_single]
    by_cases hu : u = token
    · subst hu
      rw [hl]
      simp
    · rcases h2 : alookup ki u with _ | w
      · simp only [h2]
        rw [if_neg (fun e => hu e.symm), if_neg hu]
      · simp only [h2]
        rw [if_neg hu]
  · simp only [hl]
    rw [alookup_assocSet]
    by_cases hu : u = token
    · subst hu
      rw [hl]
      simp
    · rw [if_neg (fun e => hu e.symm), if_neg hu]

theorem foldPostings_alookup (docId : Nat) (u : String) :
    ∀ (toks : List String), toks.Nodup →
    ∀ ki, alookup (toks.foldl (fun ki2 tok => appendPosting ki2 tok docId) ki) u
      = if u ∈ toks then some ((alookup ki u).getD [] ++ [docId]) else alookup ki u := by
  intro toks
  induction toks with
  | nil =>
    intro hnd ki
    simp
  | cons t rest ih =>
    intro hnd ki
    rw [List.foldl_cons]
    rw [ih hnd.of_cons]
    have ht : t ∉ rest := (List.nodup_cons.mp hnd).1
    by_cases hu : u ∈ t :: rest
    · rcases List.mem_cons.mp hu with h1 | h1
      · subst h1
        have hur : u ∉ rest := ht
        rw [if_neg hur, if_pos hu, appendPosting_alookup, if_pos rfl]
      · have hut : u ≠ t := fun e => ht (e ▸ h1)
        rw [if_pos h1, if_pos hu, appendPosting_alookup, if_neg hut]
    · have h1 : u ∉ rest := fun h2 => hu (List.mem_cons_of_mem _ h2)
      have hut : u ≠ t := fun e => hu (e ▸ List.mem_cons_self _ _)
      rw [if_neg h1, if_neg hu, appendPosting_alookup, if_neg hut]

theorem occList_eq (t : String) :
    ∀ (texts : List String) (off : Nat),
      occList t texts off
        = ((List.range texts.length).filter
            (fun i => t ∈ tokenize (texts.getD i ""))).map (fun i => off + i) := by
  intro texts
  induction texts with
  | nil => intro off; rfl
  | cons x rest ih =>
    intro off
    unfold occList
    rw [ih (off + 1)]
    rw [List.length_cons, List.range_succ_eq_map, List.filter_cons]
    simp only [List.getD_cons_zero, List.getD_cons_succ, List.filter_map]
    by_cases hx : t ∈ tokenize x
    · simp only [hx, decide_True, if_true, List.map_cons, List.map_map, Function.comp_def,
        Nat.succ_eq_add_one, List.getD_cons_succ, Nat.add_zero, List.cons_append,
        List.nil_append]
      have hf : (fun i => off + 1 + i) = (fun i : Nat => off + (i + 1)) := by
        funext i
        omega
      rw [hf]
    · simp only [hx, decide_False, Bool.false_eq_true, if_false, List.map_map, Function.comp_def,
        Nat.succ_eq_add_one, List.getD_cons_succ, List.nil_append]
      have hf : (fun i => off + 1 + i) = (fun i : Nat => off + (i + 1)) := by
        funext i
        omega
      rw [hf]

theorem occList_nodup (t : String) (texts : List String) (off : Nat) :
    (occList t texts off).Nodup := by
  rw [occList_eq]
  refine List.Nodup.map ?inj (List.Nodup.filter _ (List.nodup_range _))
  intro a b h
  have h2 : off + a = off + b := h
  omega

theorem mem_occList_zero (t : String) (texts : List String) (d : Nat) :
    d ∈ occList t texts 0 ↔ d < texts.length ∧ t ∈ tokenize (texts.getD d "") := by
  rw [occList_eq]
  simp only [List.mem_map, List.mem_filter, List.mem_range, decide_eq_true_eq]
  constructor
  · rintro ⟨i, ⟨h1, h2⟩, h3⟩
    have hi : i = d := by omega
    subst hi
    exact ⟨h1, h2⟩
  · rintro ⟨h1, h2⟩
    exact ⟨d, ⟨h1, h2⟩, by omega⟩

theorem occList_length_eq (t : String) (texts : List String) (off : Nat) :
    (occList t texts off).length
      = ((List.range texts.length).filter
          (fun i => t ∈ tokenize (texts.getD i ""))).length := by
  rw [occList_eq, List.length_map]

theorem buildPostings_alookup (t : String) :
    ∀ (texts : List String) (off : Nat) (ki : List (String × List Nat)),
      alookup (buildPostings texts off ki) t
        = match alookup ki t with
          | some l0 => some (l0 ++ occList t texts off)
          | none => if occList t texts off = [] then none
                    else some (occList t texts off) := by
  intro texts
  induction texts with
  | nil =>
    intro off ki
    show alookup ki t = _
    rcases h : alookup ki t with _ | l0
    · simp [occList]
    · simp [occList]
  | cons x rest ih =>
    intro off ki
    unfold buildPostings
    rw [ih (off + 1)]
    have hfold := foldPostings_alookup off t (dedupKeepFirst [] (tokenize x))
      (nodup_dedupKeepFirst _ _) ki
    have hmem : t ∈ dedupKeepFirst [] (tokenize x) ↔ t ∈ tokenize x := by
      rw [mem_dedupKeepFirst]
      simp
    have hocc : occList t (x :: rest) off
        = (if t ∈ tokenize x then [off] else []) ++ occList t rest (off + 1) := rfl
    rw [hocc]
    by_cases hx : t ∈ tokenize x
    · rw [if_pos hx]
      rw [hfold, if_pos (hmem.mpr hx)]
      rcases h : alookup ki t with _ | l0
      · simp only [Option.getD_none, List.nil_append]
        rcases h2 : occList t rest (off + 1) with _ | ⟨d, ds⟩ <;> simp
      · simp only [Option.getD_some]
        simp [List.append_assoc]
    · rw [if_neg hx]
      rw [hfold, if_neg (fun h2 => hx (hmem.mp h2))]
      rcases h : alookup ki t with _ | l0 <;> simp

theorem countOcc_eq_zero {α : Type} [DecidableEq α] (a : α) :
    ∀ l : List α, countOcc a l = 0 ↔ a ∉ l := by
  intro l
  induction l with
  | nil => simp [countOcc]
  | cons b rest ih =>
    unfold countOcc
    by_cases hb : b = a
    · subst hb
      simp
    · simp only [if_neg hb, Nat.zero_add, ih, List.mem_cons]
      constructor
      · rintro h (h2 | h2)
        · exact hb h2.symm
        · exact h h2
      · intro h
        exact fun h2 => h (Or.inr h2)

theorem getD_replicate_zero (n d : Nat) : (List.replicate n (0 : K)).getD d 0 = 0 := by
  induction n generalizing d with
  | zero => cases d <;> rfl
  | succ n2 ih =>
    cases d with
    | zero => rfl
    | succ d2 => exact ih d2

theorem map_tokenize_getD (texts : List String) : ∀ d : Nat,
    (texts.map tokenize).getD d [] = tokenize (texts.getD d "") := by
  induction texts with
  | nil => intro d; cases d <;> rfl
  | cons x rest ih =>
    intro d
    cases d with
    | zero => rfl
    | succ d2 => exact ih d2

theorem map_lengths_getD (texts : List String) : ∀ d : Nat,
    ((texts.map tokenize).map List.length).getD d 0
      = (tokenize (texts.getD d "")).length := by
  induction texts with
  | nil => intro d; cases d <;> rfl
  | cons x rest ih =>
    intro d
    cases d with
    | zero => rfl
    | succ d2 => exact ih d2

theorem built_alookup (texts : List String) (t : String) :
    alookup (buildKeywordIndex { emptyDB with dataEntries := texts }).keywordIndex t
      = if occList t texts 0 = [] then none else some (occList t texts 0) :=
  buildPostings_alookup t texts 0 []

theorem occList_empty_tf_zero (t : String) (texts : List String) (d : Nat)
    (h : occList t texts 0 = []) : countOcc t (tokenize (texts.getD d "")) = 0 := by
  by_cases hd : d < texts.length
  · rw [countOcc_eq_zero]
    intro hmem
    have := (mem_occList_zero t texts d).mpr ⟨hd, hmem⟩
    rw [h] at this
    cases this
  · rw [getD_ge_length texts d "" (by omega)]
    rfl

theorem bm25_built_eq_spec (lnq : ℚ → K) (texts qts : List String) (d : Nat) :
    (calculateBm25Scores lnq (buildKeywordIndex { emptyDB with dataEntries := texts })
        qts).getD d 0
      = specBm25 lnq texts qts d := by
  have hgen : ∀ (qts2 : List String) (init : List K), init.length = texts.length →
      ((qts2.foldl (bm25Step lnq (buildKeywordIndex { emptyDB with dataEntries := texts }))
          init).getD d 0
        = init.getD d 0 + (qts2.map (fun t =>
            if (countOcc t (tokenize (texts.getD d "")) : ℚ) = 0 then 0
            else bm25Idf lnq texts.length
                ((List.range texts.length).filter
                  (fun i => t ∈ tokenize (texts.getD i ""))).length
              * ((bm25Frac (countOcc t (tokenize (texts.getD d "")))
                  ((tokenize (texts.getD d "")).length)
                  (avgOf ((texts.map tokenize).map List.length))) : K))).sum)
      ∧ (qts2.foldl (bm25Step lnq (buildKeywordIndex { emptyDB with dataEntries := texts }))
          init).length = texts.length := by
    intro qts2
    induction qts2 with
    | nil =>
      intro init hlen
      simp [hlen]
    | cons t rest ih =>
      intro init hlen
      rw [List.foldl_cons]
      by_cases hocc : occList t texts 0 = []
      · have hstep1 : bm25Step lnq
            (buildKeywordIndex { emptyDB with dataEntries := texts }) init t = init := by
          unfold bm25Step
          rw [built_alookup texts t, if_pos hocc]
        rw [hstep1]
        have ihh := ih init hlen
        rw [List.map_cons, List.sum_cons]
        have htf : countOcc t (tokenize (texts.getD d "")) = 0 :=
          occList_empty_tf_zero t texts d hocc
        rw [htf]
        refine ⟨?g, ihh.2⟩
        rw [ihh.1]
        simp
      · have hstep2 : bm25Step lnq
            (buildKeywordIndex { emptyDB with dataEntries := texts }) init t
            = (occList t texts 0).foldl
                (fun sc docId => sc.set docId (sc.getD docId 0
                  + bm25Idf lnq texts.length (occList t texts 0).length *
                    ((bm25Frac (countOcc t ((texts.map tokenize).getD docId []))
                       (((texts.map tokenize).map List.length).getD docId 0)
                       (avgOf ((texts.map tokenize).map List.length))) : K))) init := by
          unfold bm25Step
          rw [built_alookup texts t, if_neg hocc]
          rfl
        rw [hstep2]
        have hfold := foldl_set_add_getD
          (fun docId => bm25Idf lnq texts.length (occList t texts 0).length *
            ((bm25Frac (countOcc t ((texts.map tokenize).getD docId []))
               (((texts.map tokenize).map List.length).getD docId 0)
               (avgOf ((texts.map tokenize).map List.length))) : K))
          (occList t texts 0) (occList_nodup t texts 0) init d
        have ihh := ih _ (hfold.2.trans hlen)
        rw [List.map_cons, List.sum_cons]
        refine ⟨?g2, ihh.2⟩
        rw [ihh.1, hfold.1, hlen]
        rw [map_tokenize_getD texts d, map_lengths_getD texts d]
        by_cases hd : d ∈ occList t texts 0 ∧ d < texts.length
        · rw [if_pos hd]
          have hmem := (mem_occList_zero t texts d).mp hd.1
          have htf : countOcc t (tokenize (texts.getD d "")) ≠ 0 :=
            fun h0 => ((countOcc_eq_zero t _).mp h0) hmem.2
          rw [if_neg (by exact_mod_cast htf)]
          rw [occList_length_eq t texts 0]
          ring
        · rw [if_neg hd]
          have htf : countOcc t (tokenize (texts.getD d "")) = 0 := by
            by_cases hdn : d < texts.length
            · rw [countOcc_eq_zero]
              intro hmem
              exact hd ⟨(mem_occList_zero t texts d).mpr ⟨hdn, hmem⟩, hdn⟩
            · rw [getD_ge_length texts d "" (by omega)]
              rfl
          rw [htf]
          simp
  have hde : (buildKeywordIndex { emptyDB with dataEntries := texts }).dataEntries
      = texts := rfl
  have hfin := hgen qts (List.replicate texts.length 0) (List.length_replicate _ _)
  unfold calculateBm25Scores specBm25
  dsimp only
  rw [hde, hfin.1, getD_replicate_zero, zero_add]
theorem enumFrom_mem_getD {α : Type} (d0 : α) :
    ∀ (l : List α) (n : Nat) (q : Nat × α), q ∈ enumFrom n l →
      n ≤ q.1 ∧ q.2 = l.getD (q.1 - n) d0 := by
  intro l
  induction l with
  | nil =>
    intro n q hq
    simp [enumFrom] at hq
  | cons x rest ih =>
    intro n q hq
    simp only [enumFrom, List.mem_cons] at hq
    cases hq with
    | inl h =>
      subst h
      simp
    | inr h =>
      have hrec := ih (n + 1) q h
      refine ⟨by omega, ?_⟩
      have hsub : q.1 - n = (q.1 - (n + 1)) + 1 := by omega
      rw [hsub, List.getD_cons_succ]
      exact hrec.2

/-- C4: on a freshly built keyword index, the scores computed by
`_calculate_bm25_scores` agree at every document with the spec's BM25
formula (`k1 = 1.5`, `b = 0.75`, `idf(t) = ln((N - df + 0.5)/(df + 0.5))`,
summed over the query-token list); and a document sharing no token with
the query scores exactly `0` and, for a nonnegative `min_score`, never
enters the candidate pool from which `_keyword_search` draws its
results. -/
theorem C4_bm25_formula_and_zero_score_exclusion
    (lnq : ℚ → K) (texts qts : List String) (d : Nat) (minScore : K)
    (hms : 0 ≤ minScore)
    (hshare : ∀ t ∈ qts, countOcc t (tokenize (texts.getD d "")) = 0) :
    (∀ d2, (calculateBm25Scores lnq
        (buildKeywordIndex { emptyDB with dataEntries := texts }) qts).getD d2 0
      = specBm25 lnq texts qts d2)
    ∧ (calculateBm25Scores lnq
        (buildKeywordIndex { emptyDB with dataEntries := texts }) qts).getD d 0 = 0
    ∧ d ∉ (keywordCandidates lnq
        (buildKeywordIndex { emptyDB with dataEntries := texts }) qts minScore).map
          Prod.fst := by
  have hzero : (calculateBm25Scores lnq
      (buildKeywordIndex { emptyDB with dataEntries := texts }) qts).getD d 0 = 0 := by
    rw [bm25_built_eq_spec]
    unfold specBm25
    dsimp only
    apply List.sum_eq_zero
    intro x hx
    obtain ⟨t, ht, rfl⟩ := List.mem_map.mp hx
    rw [hshare t ht]
    norm_num
  refine ⟨fun d2 => bm25_built_eq_spec lnq texts qts d2, hzero, ?_⟩
  intro hmem
  obtain ⟨p, hp, hfst⟩ := List.mem_map.mp hmem
  unfold keywordCandidates at hp
  have hp2 := mem_sortDesc.mp hp
  have hp3 := List.mem_filter.mp hp2
  have hlt : minScore < p.2 := by simpa using hp3.2
  have hval := (enumFrom_mem_getD (0 : K) _ 0 p hp3.1).2
  rw [Nat.sub_zero, hfst, hzero] at hval
  rw [hval] at hlt
  exact absurd hlt (not_lt.mpr hms)

theorem C4_bm25_formula_and_zero_score_exclusion_witness :
    ((0 : ℝ) ≤ 0
      ∧ (∀ t ∈ ["zzz"], countOcc t (tokenize ((["tok fil", "tok tok"]).getD 0 "")) = 0))
    ∧ ((∀ d2, (calculateBm25Scores (fun q => Real.log (q : ℝ))
          (buildKeywordIndex { emptyDB with dataEntries := ["tok fil", "tok tok"] })
          ["zzz"]).getD d2 0
        = specBm25 (fun q => Real.log (q : ℝ)) ["tok fil", "tok tok"] ["zzz"] d2)
      ∧ (calculateBm25Scores (fun q => Real.log (q : ℝ))
          (buildKeywordIndex { emptyDB with dataEntries := ["tok fil", "tok tok"] })
          ["zzz"]).getD 0 0 = 0
      ∧ 0 ∉ (keywordCandidates (fun q => Real.log (q : ℝ))
          (buildKeywordIndex { emptyDB with dataEntries := ["tok fil", "tok tok"] })
          ["zzz"] (0 : ℝ)).map Prod.fst) :=
  ⟨⟨le_refl 0, by decide⟩,
    C4_bm25_formula_and_zero_score_exclusion (fun q => Real.log (q : ℝ))
      ["tok fil", "tok tok"] ["zzz"] 0 0 (le_refl 0) (by decide)⟩
theorem bm25_twoDocs_getD (lnq : ℚ → K) :
    (calculateBm25Scores lnq stTwoDocs ["tok"]).getD 0 0 = lnq (1/5)
    ∧ (calculateBm25Scores lnq stTwoDocs ["tok"]).getD 1 0 = lnq (1/5) * (10/7 : K) := by
  have htf0 : countOcc "tok" (tokenize ((["tok fil", "tok tok"]).getD 0 "")) = 1 := by decide
  have htf1 : countOcc "tok" (tokenize ((["tok fil", "tok tok"]).getD 1 "")) = 2 := by decide
  have hdf : ((List.range (["tok fil", "tok tok"]).length).filter
      (fun i => "tok" ∈ tokenize ((["tok fil", "tok tok"]).getD i ""))).length = 2 := by decide
  have hlen0 : (tokenize ((["tok fil", "tok tok"]).getD 0 "")).length = 2 := by decide
  have hlen1 : (tokenize ((["tok fil", "tok tok"]).getD 1 "")).length = 2 := by decide
  have hlens : [(tokenize "tok fil").length, (tokenize "tok tok").length] = [2, 2] := by
    decide
  have hN : (["tok fil", "tok tok"]).length = 2 := by decide
  have havg : avgOf [2, 2] = 2 := by
    unfold avgOf
    rw [if_neg (by decide)]
    norm_num
  have harg : bm25Idf lnq 2 2 = lnq (1/5) := by
    unfold bm25Idf
    norm_num
  have hfrac1 : bm25Frac ((1 : ℕ) : ℚ) ((2 : ℕ) : ℚ) 2 = 1 := by
    unfold bm25Frac
    norm_num
  have hfrac2 : bm25Frac ((2 : ℕ) : ℚ) ((2 : ℕ) : ℚ) 2 = 10/7 := by
    unfold bm25Frac
    norm_num
  constructor
  · have h0 := bm25_built_eq_spec lnq ["tok fil", "tok tok"] ["tok"] 0
    unfold stTwoDocs
    rw [h0]
    unfold specBm25
    dsimp only
    simp only [List.map_cons, List.map_nil, List.sum_cons, List.sum_nil, add_zero]
    rw [htf0, hdf, hlen0, hN, hlens, havg]
    rw [if_neg (by norm_num), harg, hfrac1]
    norm_num
  · have h1 := bm25_built_eq_spec lnq ["tok fil", "tok tok"] ["tok"] 1
    unfold stTwoDocs
    rw [h1]
    unfold specBm25
    dsimp only
    simp only [List.map_cons, List.map_nil, List.sum_cons, List.sum_nil, add_zero]
    rw [htf1, hdf, hlen1, hN, hlens, havg]
    rw [if_neg (by norm_num), harg, hfrac2]
    norm_num
/-- C6: counterexample.  On the two-document corpus `["tok fil", "tok tok"]`
with query token `tok` (so `df = N = 2` and `idf = ln(1/5) < 0`), the
document containing `tok` twice scores strictly BELOW the otherwise
identical-length document containing it once, refuting term-frequency
monotonicity as stated. -/
theorem C6_counterexample_tf_monotonicity_fails :
    (calculateBm25Scores (fun q => Real.log (q : ℝ)) stTwoDocs ["tok"]).getD 1 0
      < (calculateBm25Scores (fun q => Real.log (q : ℝ)) stTwoDocs ["tok"]).getD 0 0 := by
  have h := bm25_twoDocs_getD (fun q => Real.log (q : ℝ))
  rw [h.1, h.2]
  have hc : ((1/5 : ℚ) : ℝ) = 1/5 := by norm_num
  rw [hc]
  have hneg : Real.log (1/5 : ℝ) < 0 := by
    apply Real.log_neg
    · norm_num
    · norm_num
  have hm := mul_lt_mul_of_neg_left (show (1 : ℝ) < 10/7 by norm_num) hneg
  linarith

theorem avgOf_nonneg (lens : List Nat) : 0 ≤ avgOf lens := by
  unfold avgOf
  by_cases h : lens = []
  · simp [h]
  · rw [if_neg h]
    positivity

theorem bm25Frac_one_le_two (dl avg : ℚ) (hdl : 0 ≤ dl) (havg : 0 ≤ avg) :
    bm25Frac 1 dl avg ≤ bm25Frac 2 dl avg := by
  unfold bm25Frac
  have hq : 0 ≤ dl / avg := div_nonneg hdl havg
  have hC : (0:ℚ) ≤ 1.5 * (1 - 0.75 + 0.75 * (dl / avg)) := by nlinarith
  have hr : 1.5 * (1 - 0.75 + 0.75 * dl / avg) = 1.5 * (1 - 0.75 + 0.75 * (dl / avg)) := by
    ring
  rw [hr]
  rw [div_le_div_iff (by nlinarith) (by nlinarith)]
  nlinarith

theorem bm25Idf_log_nonneg (n df : Nat) (h : 2 * df ≤ n) :
    0 ≤ bm25Idf (fun q => Real.log (q : ℝ)) n df := by
  unfold bm25Idf
  apply Real.log_nonneg
  have h1 : (1:ℚ) ≤ ((n:ℚ) - (df:ℚ) + 0.5) / ((df:ℚ) + 0.5) := by
    rw [le_div_iff (by positivity)]
    have h2 : ((2 * df : ℕ) : ℚ) ≤ ((n : ℕ) : ℚ) := by exact_mod_cast h
    push_cast at h2
    linarith
  exact_mod_cast h1
/-- C6 amended: term-frequency monotonicity of the BM25 scores holds once the
idf of the distinguished token is nonnegative, i.e. when the token occurs in
at most half the corpus (`2*df(t) <= N`).  On a freshly built index, if
documents `d1` and `d2` have equal token counts, `d1` contains the query
token `t` once and `d2` contains it twice, and both documents agree on the
frequency of every other query token, then `d2`'s score is at least `d1`'s.
Without the `2*df(t) <= N` bound the property fails (see the
counterexample): a negative idf reverses the comparison. -/
theorem C6_amended_bm25_tf_monotonic
    (texts qts : List String) (t : String) (d1 d2 : Nat)
    (hdf : 2 * ((List.range texts.length).filter
        (fun i => t ∈ tokenize (texts.getD i ""))).length ≤ texts.length)
    (hlen : (tokenize (texts.getD d1 "")).length = (tokenize (texts.getD d2 "")).length)
    (htf1 : countOcc t (tokenize (texts.getD d1 "")) = 1)
    (htf2 : countOcc t (tokenize (texts.getD d2 "")) = 2)
    (hoth : ∀ t2 ∈ qts, t2 ≠ t →
        countOcc t2 (tokenize (texts.getD d1 ""))
          = countOcc t2 (tokenize (texts.getD d2 ""))) :
    (calculateBm25Scores (fun q => Real.log (q : ℝ))
        (buildKeywordIndex { emptyDB with dataEntries := texts }) qts).getD d1 0
      ≤ (calculateBm25Scores (fun q => Real.log (q : ℝ))
        (buildKeywordIndex { emptyDB with dataEntries := texts }) qts).getD d2 0 := by
  rw [bm25_built_eq_spec, bm25_built_eq_spec]
  unfold specBm25
  dsimp only
  apply List.sum_le_sum
  intro t2 ht2
  by_cases heq : t2 = t
  · subst heq
    rw [htf1, htf2, hlen]
    rw [if_neg (by norm_num), if_neg (by norm_num)]
    apply mul_le_mul_of_nonneg_left
    · have hfr := bm25Frac_one_le_two ((tokenize (texts.getD d2 "")).length : ℚ)
        (avgOf ((texts.map tokenize).map List.length)) (by positivity)
        (avgOf_nonneg ((texts.map tokenize).map List.length))
      push_cast
      exact_mod_cast hfr
    · exact bm25Idf_log_nonneg texts.length _ hdf
  · rw [hoth t2 ht2 heq, hlen]

theorem C6_amended_bm25_tf_monotonic_witness :
    (2 * ((List.range (["tok fil", "tok tok", "aaa bbb", "ccc ddd"]).length).filter
        (fun i => "tok" ∈ tokenize ((["tok fil", "tok tok", "aaa bbb", "ccc ddd"]).getD i ""))).length
        ≤ (["tok fil", "tok tok", "aaa bbb", "ccc ddd"]).length
      ∧ (tokenize ((["tok fil", "tok tok", "aaa bbb", "ccc ddd"]).getD 0 "")).length
          = (tokenize ((["tok fil", "tok tok", "aaa bbb", "ccc ddd"]).getD 1 "")).length
      ∧ countOcc "tok" (tokenize ((["tok fil", "tok tok", "aaa bbb", "ccc ddd"]).getD 0 "")) = 1
      ∧ countOcc "tok" (tokenize ((["tok fil", "tok tok", "aaa bbb", "ccc ddd"]).getD 1 "")) = 2)
    ∧ (calculateBm25Scores (fun q => Real.log (q : ℝ))
        (buildKeywordIndex
          { emptyDB with dataEntries := ["tok fil", "tok tok", "aaa bbb", "ccc ddd"] })
        ["tok"]).getD 0 0
      ≤ (calculateBm25Scores (fun q => Real.log (q : ℝ))
        (buildKeywordIndex
          { emptyDB with dataEntries := ["tok fil", "tok tok", "aaa bbb", "ccc ddd"] })
        ["tok"]).getD 1 0 :=
  ⟨⟨by decide, by decide, by decide, by decide⟩,
    C6_amended_bm25_tf_monotonic ["tok fil", "tok tok", "aaa bbb", "ccc ddd"] ["tok"]
      "tok" 0 1 (by decide) (by decide) (by decide) (by decide)
      (fun t2 ht2 hne => by
        simp only [List.mem_singleton] at ht2
        exact absurd ht2 hne)⟩
